import Mathlib

/-!
Verification development for the EZ Stagger Offset keyframe tool.

The host animation graph (objects, actions, F-curves, keyframe points) is an
external collaborator of the tool: it is embedded here as plain lists of
records, with times and values as rationals.  The tool's own functions
(`_get_fcurve_and_keypoint`, `_determine_grouping`, `_calculate_current_ease`,
the stagger operator's `_apply`/`_reshuffle`/`modal`, the ease operator's
`_apply_ease`/`_restore`) are translated from the source; in-place mutation of
the host graph becomes explicit scene-to-scene functions.
-/

namespace EZStagger

variable {α β γ : Type*}

/-- A live keyframe point of the host graph: control point `co`, left/right
handles, handle interpolation kinds, and the control-point selection flag. -/
@[ext]
structure Keypoint where
  co_x : ℚ
  co_y : ℚ
  hl_x : ℚ
  hl_y : ℚ
  hr_x : ℚ
  hr_y : ℚ
  hl_type : String
  hr_type : String
  select_cp : Bool
deriving Repr, DecidableEq

/-- A live F-curve: a data path, an array index, and an ordered list of
keyframe points. -/
structure FCurve where
  data_path : String
  array_index : Nat
  keyframe_points : List Keypoint
deriving Repr, DecidableEq

/-- A live action: a name and the f-curves reachable from it (the source
flattens layers/strips/slots into one list via `_get_fcurves_from_action`). -/
structure Action where
  name : String
  fcurves : List FCurve
deriving Repr, DecidableEq

/-- A live object: a name and the currently assigned action
(`animation_data.action`; absence of animation data and absence of an action
are collapsed into `none`, which the source treats identically). -/
structure Obj where
  name : String
  action : Option Action
deriving Repr, DecidableEq

/-- The host scene slice the tool reads and writes:
`bpy.context.view_layer.objects` with unique-name lookup. -/
abbrev Scene := List Obj

/-- The identity fields a snapshot uses to re-locate its live keyframe. -/
@[ext]
structure Loc where
  obj_name : String
  data_path : String
  array_index : Nat
  kp_index : Nat
deriving Repr, DecidableEq

/-- The per-keyframe snapshot dict built by `_collect_selected_keyframes`. -/
structure Snapshot where
  obj_name : String
  action_name : String
  data_path : String
  array_index : Nat
  bone_name : Option String
  kp_index : Nat
  frame : ℚ
  value : ℚ
  hl_x : ℚ
  hl_y : ℚ
  hr_x : ℚ
  hr_y : ℚ
  hl_type : String
  hr_type : String
deriving Repr, DecidableEq

/-- Identity tuple of a snapshot (the fields `_get_fcurve_and_keypoint`
actually consults). -/
def Snapshot.loc (it : Snapshot) : Loc :=
  ⟨it.obj_name, it.data_path, it.array_index, it.kp_index⟩

/-- Replace the first element satisfying `p` by its image under `f`
(in-place mutation through a reference obtained by a linear search). -/
def modifyFirst (p : α → Bool) (f : α → α) : List α → List α
  | [] => []
  | a :: as => if p a then f a :: as else a :: modifyFirst p f as

/-- Replace the element at index `n` by its image under `f`
(in-place mutation of `list[n]`). -/
def modifyIdx (f : α → α) : Nat → List α → List α
  | _, [] => []
  | 0, a :: as => f a :: as
  | n + 1, a :: as => a :: modifyIdx f n as

theorem length_modifyIdx (f : α → α) : ∀ (n : Nat) (l : List α),
    (modifyIdx f n l).length = l.length := by
  intro n l
  induction l generalizing n with
  | nil => cases n <;> rfl
  | cons a as ih => cases n with
    | zero => rfl
    | succ m => simpa [modifyIdx] using ih m

theorem getElem?_modifyIdx_self (f : α → α) : ∀ (n : Nat) (l : List α),
    (modifyIdx f n l)[n]? = (l[n]?).map f := by
  intro n l
  induction l generalizing n with
  | nil => cases n <;> rfl
  | cons a as ih => cases n with
    | zero => simp [modifyIdx]
    | succ m => simp [modifyIdx, ih m]

theorem getElem?_modifyIdx_ne (f : α → α) : ∀ (n m : Nat), m ≠ n →
    ∀ l : List α, (modifyIdx f n l)[m]? = l[m]? := by
  intro n m hne l
  induction l generalizing n m with
  | nil => cases n <;> rfl
  | cons a as ih =>
    cases n with
    | zero =>
      cases m with
      | zero => exact absurd rfl hne
      | succ k => simp [modifyIdx]
    | succ n' =>
      cases m with
      | zero => simp [modifyIdx]
      | succ k => simp [modifyIdx, ih n' k (by omega)]

theorem getElem?_modifyIdx_map (f : α → α) (g : α → β)
    (hg : ∀ a, g (f a) = g a) (n m : Nat) (l : List α) :
    ((modifyIdx f n l)[m]?).map g = (l[m]?).map g := by
  by_cases h : m = n
  · subst h
    rw [getElem?_modifyIdx_self]
    cases l[m]? <;> simp [hg]
  · rw [getElem?_modifyIdx_ne f n m h]

theorem map_modifyIdx (f : α → α) (g : α → β) (hg : ∀ a, g (f a) = g a) :
    ∀ (n : Nat) (l : List α), (modifyIdx f n l).map g = l.map g := by
  intro n l
  induction l generalizing n with
  | nil => cases n <;> rfl
  | cons a as ih => cases n with
    | zero => simp [modifyIdx, hg]
    | succ m => simpa [modifyIdx] using ih m

/-- Core commutation fact: resolving with predicate `p` after an in-place
modification of the first `q`-element is unchanged, as long as the modifier
preserves `p`-status and the downstream extraction `e` agrees on elements
satisfying both predicates. -/
theorem find?_bind_modifyFirst (p q : α → Bool) (g : α → α) (e : α → Option β)
    (hp : ∀ a, p (g a) = p a)
    (he : ∀ a, q a = true → p a = true → e (g a) = e a) :
    ∀ l : List α, ((modifyFirst q g l).find? p).bind e = (l.find? p).bind e := by
  intro l
  induction l with
  | nil => rfl
  | cons a as ih =>
    simp only [modifyFirst]
    cases hq : q a with
    | true =>
      rw [if_pos rfl]
      cases hpa : p a with
      | true =>
        rw [List.find?_cons_of_pos _ (show p (g a) = true by rw [hp]; exact hpa),
          List.find?_cons_of_pos _ hpa]
        simp [he a hq hpa]
      | false =>
        rw [List.find?_cons_of_neg _
            (show ¬p (g a) = true by rw [hp, hpa]; exact Bool.false_ne_true),
          List.find?_cons_of_neg _ (by rw [hpa]; exact Bool.false_ne_true)]
    | false =>
      rw [if_neg Bool.false_ne_true]
      cases hpa : p a with
      | true =>
        rw [List.find?_cons_of_pos _ hpa, List.find?_cons_of_pos _ hpa]
      | false =>
        rw [List.find?_cons_of_neg _ (by rw [hpa]; exact Bool.false_ne_true),
          List.find?_cons_of_neg _ (by rw [hpa]; exact Bool.false_ne_true)]
        exact ih

/-- Companion to `find?_bind_modifyFirst` for the case where the modified
element is exactly the one being resolved: the extraction is transformed. -/
theorem find?_bind_modifyFirst_self (p : α → Bool) (g : α → α)
    (e e' : α → Option β)
    (hp : ∀ a, p (g a) = p a)
    (he : ∀ a, p a = true → e (g a) = e' a) :
    ∀ l : List α, ((modifyFirst p g l).find? p).bind e = (l.find? p).bind e' := by
  intro l
  induction l with
  | nil => rfl
  | cons a as ih =>
    simp only [modifyFirst]
    cases hpa : p a with
    | true =>
      rw [if_pos rfl]
      rw [List.find?_cons_of_pos _ (show p (g a) = true by rw [hp]; exact hpa),
        List.find?_cons_of_pos _ hpa]
      simp [he a hpa]
    | false =>
      rw [if_neg Bool.false_ne_true]
      rw [List.find?_cons_of_neg _ (by rw [hpa]; exact Bool.false_ne_true),
        List.find?_cons_of_neg _ (by rw [hpa]; exact Bool.false_ne_true)]
      exact ih

/-- Python object lookup `bpy.data.objects.get(obj_name)` compares names. -/
def objPred (o : String) (ob : Obj) : Bool := ob.name == o

/-- The f-curve match test of `_get_fcurve_and_keypoint`:
`fc.data_path == data_path and fc.array_index == array_index`. -/
def fcMatch (dp : String) (ai : Nat) (fc : FCurve) : Bool :=
  fc.data_path == dp && fc.array_index == ai

/-- Combined predicate characterising which f-curve the source loop settles
on: a matching curve whose keyframe list is long enough (the loop keeps
scanning when `kp_index` is out of range for a matching curve). -/
def fcPred (dp : String) (ai ki : Nat) (fc : FCurve) : Bool :=
  fcMatch dp ai fc && decide (ki < fc.keyframe_points.length)

/-- The f-curve scan loop of `_get_fcurve_and_keypoint`: first matching curve
with `kp_index` in range wins; `0 <= kp_index` is automatic for `Nat`. -/
def findKpInFCurves (dp : String) (ai ki : Nat) : List FCurve → Option (FCurve × Keypoint)
  | [] => none
  | fc :: rest =>
    if fcMatch dp ai fc then
      match fc.keyframe_points[ki]? with
      | some kp => some (fc, kp)
      | none => findKpInFCurves dp ai ki rest
    else findKpInFCurves dp ai ki rest

/-- Embeds `_get_fcurve_and_keypoint`: re-locates a live keyframe from an
object name, data path, array index and keyframe index.  The `action_name`
argument is deliberately never consulted (source comment: the action name
might have changed); a missing object, missing action, unmatched curve or
out-of-range index yields `none` (`return None, None`). -/
def _get_fcurve_and_keypoint (s : Scene) (obj_name action_name data_path : String)
    (array_index kp_index : Nat) : Option (FCurve × Keypoint) :=
  (s.find? (objPred obj_name)).bind (fun ob =>
    ob.action.bind (fun act =>
      findKpInFCurves data_path array_index kp_index act.fcurves))

/-- The keyframe a snapshot identity currently resolves to (second component
of `_get_fcurve_and_keypoint`). -/
def resolveKp (s : Scene) (loc : Loc) : Option Keypoint :=
  (_get_fcurve_and_keypoint s loc.obj_name "" loc.data_path loc.array_index
    loc.kp_index).map Prod.snd

/-- Mutation step on the resolved f-curve: replace its keyframe at `ki`. -/
def updFCurve (ki : Nat) (f : Keypoint → Keypoint) (fc : FCurve) : FCurve :=
  { fc with keyframe_points := modifyIdx f ki fc.keyframe_points }

/-- Mutation step on the resolved action: modify the first f-curve the scan of
`_get_fcurve_and_keypoint` would settle on. -/
def updAction (loc : Loc) (f : Keypoint → Keypoint) (act : Action) : Action :=
  { act with
    fcurves := modifyFirst (fcPred loc.data_path loc.array_index loc.kp_index)
      (updFCurve loc.kp_index f) act.fcurves }

/-- Mutation step on the resolved object: modify inside its action, if any. -/
def updObj (loc : Loc) (f : Keypoint → Keypoint) (ob : Obj) : Obj :=
  { ob with action := ob.action.map (updAction loc f) }

/-- In-place mutation of the keyframe that `_get_fcurve_and_keypoint` resolves
`loc` to: the same object lookup, the same first-matching-curve scan, then the
keyframe at `kp_index` is replaced by its image under `f`. -/
def updateKeypoint (s : Scene) (loc : Loc) (f : Keypoint → Keypoint) : Scene :=
  modifyFirst (objPred loc.obj_name) (updObj loc f) s

theorem option_map_bind (x : Option α) (g : α → Option β) (h : β → γ) :
    (x.bind g).map h = x.bind (fun a => (g a).map h) := by cases x <;> rfl

theorem findKpInFCurves_eq (dp : String) (ai ki : Nat) :
    ∀ fcs : List FCurve, findKpInFCurves dp ai ki fcs
      = (fcs.find? (fcPred dp ai ki)).bind
          (fun fc => (fc.keyframe_points[ki]?).map (fun kp => (fc, kp))) := by
  intro fcs
  induction fcs with
  | nil => rfl
  | cons fc rest ih =>
    simp only [findKpInFCurves]
    cases hm : fcMatch dp ai fc with
    | true =>
      rw [if_pos rfl]
      cases hk : fc.keyframe_points[ki]? with
      | some kp =>
        have hlt : ki < fc.keyframe_points.length := by
          by_contra hc
          rw [List.getElem?_eq_none_iff.mpr (by omega)] at hk
          exact Option.noConfusion hk
        rw [List.find?_cons_of_pos _
          (show fcPred dp ai ki fc = true by simp [fcPred, hm, hlt])]
        simp [hk]
      | none =>
        have hge : fc.keyframe_points.length ≤ ki :=
          List.getElem?_eq_none_iff.mp hk
        rw [List.find?_cons_of_neg _
          (show ¬fcPred dp ai ki fc = true by simp [fcPred, hm]; omega)]
        exact ih
    | false =>
      rw [if_neg Bool.false_ne_true]
      rw [List.find?_cons_of_neg _
        (show ¬fcPred dp ai ki fc = true by simp [fcPred, hm])]
      exact ih

/-- Canonical shape of `resolveKp` used by the commutation lemmas below. -/
theorem resolveKp_eq (s : Scene) (loc : Loc) :
    resolveKp s loc = (s.find? (objPred loc.obj_name)).bind (fun ob =>
      ob.action.bind (fun act =>
        (act.fcurves.find? (fcPred loc.data_path loc.array_index loc.kp_index)).bind
          (fun fc => fc.keyframe_points[loc.kp_index]?))) := by
  simp only [resolveKp, _get_fcurve_and_keypoint, findKpInFCurves_eq,
    option_map_bind]
  congr 1
  funext ob
  congr 1
  funext act
  congr 1
  funext fc
  cases fc.keyframe_points[loc.kp_index]? <;> rfl

/-- Writing through a resolved reference changes exactly the keyframe that
resolution finds: resolving the same identity afterwards sees the write. -/
theorem resolveKp_update_same (s : Scene) (loc : Loc) (f : Keypoint → Keypoint) :
    resolveKp (updateKeypoint s loc f) loc = (resolveKp s loc).map f := by
  simp only [resolveKp_eq, updateKeypoint, option_map_bind]
  refine find?_bind_modifyFirst_self _ _ _ _ (fun ob => ?_) (fun ob _ => ?_) s
  · simp [objPred, updObj]
  · simp only [updObj]
    cases ob.action with
    | none => rfl
    | some act =>
      simp only [Option.map_some', Option.bind_some, updAction, option_map_bind]
      refine find?_bind_modifyFirst_self _ _ _ _ (fun fc => ?_) (fun fc _ => ?_)
        act.fcurves
      · simp [fcPred, fcMatch, updFCurve, length_modifyIdx]
      · simp [updFCurve, getElem?_modifyIdx_self]

/-- Writing through one snapshot identity leaves resolution of any other
identity untouched. -/
theorem resolveKp_update_ne (s : Scene) (loc loc' : Loc) (f : Keypoint → Keypoint)
    (hne : loc' ≠ loc) :
    resolveKp (updateKeypoint s loc' f) loc = resolveKp s loc := by
  simp only [resolveKp_eq, updateKeypoint]
  refine find?_bind_modifyFirst _ _ _ _ (fun ob => ?_) (fun ob hq hp => ?_) s
  · simp [objPred, updObj]
  · have ho : loc'.obj_name = loc.obj_name := by
      simp only [objPred, beq_iff_eq] at hq hp
      rw [← hq, ← hp]
    simp only [updObj]
    cases ob.action with
    | none => rfl
    | some act =>
      simp only [Option.map_some', Option.bind_some, updAction]
      refine find?_bind_modifyFirst _ _ _ _ (fun fc => ?_) (fun fc hq2 hp2 => ?_)
        act.fcurves
      · simp [fcPred, fcMatch, updFCurve, length_modifyIdx]
      · have hdp : loc'.data_path = loc.data_path := by
          simp only [fcPred, fcMatch, Bool.and_eq_true, beq_iff_eq] at hq2 hp2
          rw [← hq2.1.1, ← hp2.1.1]
        have hai : loc'.array_index = loc.array_index := by
          simp only [fcPred, fcMatch, Bool.and_eq_true, beq_iff_eq] at hq2 hp2
          rw [← hq2.1.2, ← hp2.1.2]
        have hki : loc'.kp_index ≠ loc.kp_index := by
          intro hk
          exact hne (Loc.ext ho hdp hai hk)
        simp only [updFCurve]
        exact getElem?_modifyIdx_ne f loc'.kp_index loc.kp_index
          (fun hk => hki hk.symm) fc.keyframe_points

/-- The keyframe components no ease-gesture write touches: control-point time,
control-point value, and the selection flag. -/
def kpCoSel (kp : Keypoint) : ℚ × ℚ × Bool := (kp.co_x, kp.co_y, kp.select_cp)

theorem resolveKp_update_coSel (s : Scene) (loc loc' : Loc) (f : Keypoint → Keypoint)
    (hf : ∀ kp, kpCoSel (f kp) = kpCoSel kp) :
    (resolveKp (updateKeypoint s loc' f) loc).map kpCoSel
      = (resolveKp s loc).map kpCoSel := by
  by_cases h : loc' = loc
  · subst h
    rw [resolveKp_update_same]
    cases resolveKp s loc' <;> simp [hf]
  · rw [resolveKp_update_ne s loc loc' f h]

/-- The co/selection column of the f-curve a location resolves through
(tracks the neighbour keyframe times an ease update reads). -/
def resolveCol (s : Scene) (loc : Loc) : Option (List (ℚ × ℚ × Bool)) :=
  (_get_fcurve_and_keypoint s loc.obj_name "" loc.data_path loc.array_index
    loc.kp_index).map (fun pr => pr.1.keyframe_points.map kpCoSel)

theorem resolveCol_eq (s : Scene) (loc : Loc) :
    resolveCol s loc = (s.find? (objPred loc.obj_name)).bind (fun ob =>
      ob.action.bind (fun act =>
        (act.fcurves.find? (fcPred loc.data_path loc.array_index loc.kp_index)).bind
          (fun fc => (fc.keyframe_points[loc.kp_index]?).map
            (fun _ => fc.keyframe_points.map kpCoSel)))) := by
  simp only [resolveCol, _get_fcurve_and_keypoint, findKpInFCurves_eq,
    option_map_bind]
  congr 1
  funext ob
  congr 1
  funext act
  congr 1
  funext fc
  cases fc.keyframe_points[loc.kp_index]? <;> rfl

theorem resolveCol_update (s : Scene) (loc loc' : Loc) (f : Keypoint → Keypoint)
    (hf : ∀ kp, kpCoSel (f kp) = kpCoSel kp) :
    resolveCol (updateKeypoint s loc' f) loc = resolveCol s loc := by
  simp only [resolveCol_eq, updateKeypoint]
  refine find?_bind_modifyFirst _ _ _ _ (fun ob => by simp [objPred, updObj])
    (fun ob _ _ => ?_) s
  simp only [updObj]
  cases ob.action with
  | none => rfl
  | some act =>
    simp only [Option.map_some', Option.bind_some, updAction]
    refine find?_bind_modifyFirst _ _ _ _
      (fun fc => by simp [fcPred, fcMatch, updFCurve, length_modifyIdx])
      (fun fc _ _ => ?_) act.fcurves
    simp only [updFCurve]
    have hcol : (modifyIdx f loc'.kp_index fc.keyframe_points).map kpCoSel
        = fc.keyframe_points.map kpCoSel := map_modifyIdx f kpCoSel hf _ _
    simp only [hcol]
    exact getElem?_modifyIdx_map f (fun _ => fc.keyframe_points.map kpCoSel)
      (fun a => rfl) loc'.kp_index loc.kp_index fc.keyframe_points

/-- The `action_name` argument plays no role in resolution. -/
theorem get_action_name_irrelevant (s : Scene) (o an an' dp : String) (ai ki : Nat) :
    _get_fcurve_and_keypoint s o an dp ai ki
      = _get_fcurve_and_keypoint s o an' dp ai ki := rfl

theorem get_of_resolveKp {s : Scene} {loc : Loc} {kp : Keypoint} (an : String)
    (h : resolveKp s loc = some kp) :
    ∃ fc, _get_fcurve_and_keypoint s loc.obj_name an loc.data_path
      loc.array_index loc.kp_index = some (fc, kp) := by
  rw [get_action_name_irrelevant s loc.obj_name an ""]
  unfold resolveKp at h
  cases hg : _get_fcurve_and_keypoint s loc.obj_name "" loc.data_path
      loc.array_index loc.kp_index with
  | none => rw [hg] at h; exact Option.noConfusion h
  | some pr =>
    rw [hg] at h
    refine ⟨pr.1, ?_⟩
    cases pr with
    | mk fc kp' =>
      simp only [Option.map_some'] at h
      rw [Option.some.inj h]

/-- One loop-body iteration of a gesture write: resolve the snapshot and, when
it resolves, mutate the resolved keyframe in place; a stale snapshot is
silently skipped. -/
def applyWrite (pr : Snapshot × (Keypoint → Keypoint)) (s : Scene) : Scene :=
  match _get_fcurve_and_keypoint s pr.1.obj_name pr.1.action_name pr.1.data_path
      pr.1.array_index pr.1.kp_index with
  | none => s
  | some _ => updateKeypoint s pr.1.loc pr.2

/-- A whole gesture write pass: the snapshots in iteration order, each paired
with the keyframe mutation the pass performs on it. -/
def applyWrites (l : List (Snapshot × (Keypoint → Keypoint))) (s : Scene) : Scene :=
  l.foldl (fun acc pr => applyWrite pr acc) s

theorem applyWrite_of_resolved (s : Scene) (it : Snapshot) (w : Keypoint → Keypoint)
    (kp : Keypoint) (h : resolveKp s it.loc = some kp) :
    applyWrite (it, w) s = updateKeypoint s it.loc w := by
  simp only [resolveKp, Snapshot.loc] at h
  simp only [applyWrite]
  cases hg : _get_fcurve_and_keypoint s it.obj_name it.action_name it.data_path
      it.array_index it.kp_index with
  | none =>
    have hg' : _get_fcurve_and_keypoint s it.obj_name "" it.data_path
        it.array_index it.kp_index = none := hg
    rw [hg'] at h
    exact Option.noConfusion h
  | some pr => rfl

theorem resolveKp_applyWrite_ne (s : Scene) (pr : Snapshot × (Keypoint → Keypoint))
    (loc : Loc) (h : pr.1.loc ≠ loc) :
    resolveKp (applyWrite pr s) loc = resolveKp s loc := by
  simp only [applyWrite]
  cases hg : _get_fcurve_and_keypoint s pr.1.obj_name pr.1.action_name
      pr.1.data_path pr.1.array_index pr.1.kp_index with
  | none => rfl
  | some q => exact resolveKp_update_ne s loc pr.1.loc pr.2 h

theorem resolveKp_applyWrites_ne :
    ∀ (l : List (Snapshot × (Keypoint → Keypoint))) (loc : Loc),
      (∀ pr ∈ l, pr.1.loc ≠ loc) →
      ∀ s : Scene, resolveKp (applyWrites l s) loc = resolveKp s loc := by
  intro l
  induction l with
  | nil => intro loc _ s; rfl
  | cons pr rest ih =>
    intro loc h s
    have h1 := h pr (List.mem_cons_self pr rest)
    have h2 : ∀ q ∈ rest, q.1.loc ≠ loc :=
      fun q hq => h q (List.mem_cons_of_mem _ hq)
    calc resolveKp (applyWrites (pr :: rest) s) loc
        = resolveKp (applyWrites rest (applyWrite pr s)) loc := rfl
      _ = resolveKp (applyWrite pr s) loc := ih loc h2 _
      _ = resolveKp s loc := resolveKp_applyWrite_ne s pr loc h1

/-- Master lemma for a gesture write pass: when the snapshots' identities are
pairwise distinct, the pass maps the keyframe a member snapshot resolves to
through exactly that member's write. -/
theorem resolveKp_applyWrites_mem :
    ∀ (l : List (Snapshot × (Keypoint → Keypoint))) (it : Snapshot)
      (w : Keypoint → Keypoint) (s : Scene) (kp : Keypoint),
      l.Pairwise (fun a b => a.1.loc ≠ b.1.loc) →
      (it, w) ∈ l →
      resolveKp s it.loc = some kp →
      resolveKp (applyWrites l s) it.loc = some (w kp) := by
  intro l
  induction l with
  | nil => intro it w s kp _ hmem _; exact absurd hmem (List.not_mem_nil _)
  | cons pr rest ih =>
    intro it w s kp hpw hmem hres
    rw [List.pairwise_cons] at hpw
    rcases List.mem_cons.mp hmem with heq | hmem'
    · subst heq
      have hstep : applyWrite (it, w) s = updateKeypoint s it.loc w :=
        applyWrite_of_resolved s it w kp hres
      have h1 : resolveKp (applyWrite (it, w) s) it.loc = some (w kp) := by
        rw [hstep, resolveKp_update_same, hres]
        rfl
      have h2 : ∀ q ∈ rest, q.1.loc ≠ it.loc :=
        fun q hq => Ne.symm (hpw.1 q hq)
      calc resolveKp (applyWrites ((it, w) :: rest) s) it.loc
          = resolveKp (applyWrites rest (applyWrite (it, w) s)) it.loc := rfl
        _ = resolveKp (applyWrite (it, w) s) it.loc :=
            resolveKp_applyWrites_ne rest it.loc h2 _
        _ = some (w kp) := h1
    · have hple : pr.1.loc ≠ it.loc := hpw.1 (it, w) hmem'
      have hres' : resolveKp (applyWrite pr s) it.loc = some kp := by
        rw [resolveKp_applyWrite_ne s pr it.loc hple]
        exact hres
      exact ih it w (applyWrite pr s) kp hpw.2 hmem' hres'

/-- The write `EZSTAGGER_OT_stagger._apply` performs on one resolved keyframe
at channel offset `offset = rank * delta`: the keyframe time and both handle
times are recomputed from the immutable snapshot originals; values, handle
values and handle kinds are left alone. -/
def staggerWrite (it : Snapshot) (offset : ℚ) (kp : Keypoint) : Keypoint :=
  { kp with
    co_x := it.frame + offset
    hl_x := it.hl_x + offset
    hr_x := it.hr_x + offset }

/-- The nested loop `for idx, group in enumerate(self._groups): for it in
group: ...` of `EZSTAGGER_OT_stagger._apply`, entered at rank `idx`. -/
def stagger_apply_go (delta : ℚ) : Nat → List (List Snapshot) → Scene → Scene
  | _, [], s => s
  | idx, g :: gs, s =>
    stagger_apply_go delta (idx + 1) gs
      (g.foldl (fun acc it =>
        applyWrite (it, staggerWrite it ((idx : ℚ) * delta)) acc) s)

/-- Embeds `EZSTAGGER_OT_stagger._apply` (the trailing batched `fc.update()`
calls recompute host caches only and change no keyframe data). -/
def stagger_apply (groups : List (List Snapshot)) (delta : ℚ) (s : Scene) : Scene :=
  stagger_apply_go delta 0 groups s

/-- The rank each snapshot receives in a pass, in iteration order. -/
def flatRankedFrom : Nat → List (List Snapshot) → List (Nat × Snapshot)
  | _, [] => []
  | idx, g :: gs => g.map (fun it => (idx, it)) ++ flatRankedFrom (idx + 1) gs

theorem applyWrites_append (A B : List (Snapshot × (Keypoint → Keypoint)))
    (s : Scene) : applyWrites (A ++ B) s = applyWrites B (applyWrites A s) :=
  List.foldl_append _ _ _ _

theorem stagger_apply_go_eq (delta : ℚ) :
    ∀ (gs : List (List Snapshot)) (idx : Nat) (s : Scene),
      stagger_apply_go delta idx gs s
        = applyWrites ((flatRankedFrom idx gs).map
            (fun q => (q.2, staggerWrite q.2 ((q.1 : ℚ) * delta)))) s := by
  intro gs
  induction gs with
  | nil => intro idx s; rfl
  | cons g rest ih =>
    intro idx s
    show stagger_apply_go delta (idx + 1) rest _ = _
    rw [ih (idx + 1)]
    simp only [flatRankedFrom, List.map_append, List.map_map]
    rw [applyWrites_append]
    congr 1
    simp only [applyWrites, List.foldl_map]
    rfl

theorem mem_flatRankedFrom :
    ∀ (gs : List (List Snapshot)) (n r : Nat) (g : List Snapshot) (it : Snapshot),
      gs[r]? = some g → it ∈ g → (n + r, it) ∈ flatRankedFrom n gs := by
  intro gs
  induction gs with
  | nil => intro n r g it hg _; simp at hg
  | cons g0 rest ih =>
    intro n r g it hg hit
    cases r with
    | zero =>
      have hg0 : g0 = g := by simpa using hg
      subst hg0
      simp only [flatRankedFrom, Nat.add_zero]
      exact List.mem_append_left _ (List.mem_map_of_mem _ hit)
    | succ r' =>
      have h2 : (n + 1 + r', it) ∈ flatRankedFrom (n + 1) rest :=
        ih (n + 1) r' g it (by simpa using hg) hit
      have hn : n + (r' + 1) = n + 1 + r' := by omega
      simp only [flatRankedFrom]
      refine List.mem_append_right _ ?_
      rw [hn]
      exact h2

theorem map_snd_flatRankedFrom :
    ∀ (gs : List (List Snapshot)) (n : Nat),
      (flatRankedFrom n gs).map Prod.snd = gs.flatten := by
  intro gs
  induction gs with
  | nil => intro n; rfl
  | cons g rest ih =>
    intro n
    simp only [flatRankedFrom, List.map_append, List.map_map, ih (n + 1)]
    simp [List.flatten_cons]

theorem pairwise_flatRankedFrom (gs : List (List Snapshot))
    (h : gs.flatten.Pairwise (fun a b : Snapshot => a.loc ≠ b.loc)) :
    (flatRankedFrom 0 gs).Pairwise (fun a b => a.2.loc ≠ b.2.loc) := by
  rw [← map_snd_flatRankedFrom gs 0] at h
  exact (List.pairwise_map (f := Prod.snd)
    (R := fun a b : Snapshot => a.loc ≠ b.loc)).mp h

/-- Per-snapshot effect of one `_apply(delta)` pass. -/
theorem resolveKp_stagger_apply (groups : List (List Snapshot)) (d : ℚ)
    (s : Scene) (r : Nat) (g : List Snapshot) (it : Snapshot) (kp : Keypoint)
    (hg : groups[r]? = some g) (hit : it ∈ g)
    (hdist : groups.flatten.Pairwise (fun a b : Snapshot => a.loc ≠ b.loc))
    (hres : resolveKp s it.loc = some kp) :
    resolveKp (stagger_apply groups d s) it.loc
      = some (staggerWrite it ((r : ℚ) * d) kp) := by
  rw [stagger_apply, stagger_apply_go_eq]
  refine resolveKp_applyWrites_mem _ it _ s kp ?_ ?_ hres
  · exact List.pairwise_map.mpr (pairwise_flatRankedFrom groups hdist)
  · have hm := mem_flatRankedFrom groups 0 r g it hg hit
    rw [Nat.zero_add] at hm
    exact List.mem_map_of_mem _ hm

/-- The ease modal's pixel-to-factor mapping:
`val = max(0.0, min(1.0, (event.mouse_region_x - sx) / sw))`. -/
def easeSliderValue (mx sx sw : ℚ) : ℚ := max 0 (min 1 ((mx - sx) / sw))

/-- The write `_apply_ease` performs on one resolved keyframe: BOTH handle
kinds are forced to FREE first; then, when the active side has a neighbour in
the resolved f-curve, that side's handle time is recomputed from the snapshot
frame, the live neighbour time and the factor, and its value is reset to the
snapshot original. -/
def easeWrite (is_in : Bool) (factor : ℚ) (it : Snapshot) (fc : FCurve)
    (kp : Keypoint) : Keypoint :=
  let kp2 : Keypoint := { kp with hl_type := "FREE", hr_type := "FREE" }
  if is_in then
    if 0 < it.kp_index then
      match fc.keyframe_points[it.kp_index - 1]? with
      | some prev =>
        { kp2 with
          hl_x := it.frame - (it.frame - prev.co_x) * factor
          hl_y := it.hl_y }
      | none => kp2
    else kp2
  else
    if it.kp_index < fc.keyframe_points.length - 1 then
      match fc.keyframe_points[it.kp_index + 1]? with
      | some next =>
        { kp2 with
          hr_x := it.frame + (next.co_x - it.frame) * factor
          hr_y := it.hr_y }
      | none => kp2
    else kp2

/-- One iteration of the `for it in self._data` loop of `_apply_ease`. -/
def applyEaseItem (is_in : Bool) (factor : ℚ) (it : Snapshot) (s : Scene) : Scene :=
  match _get_fcurve_and_keypoint s it.obj_name it.action_name it.data_path
      it.array_index it.kp_index with
  | none => s
  | some pr => updateKeypoint s it.loc (easeWrite is_in factor it pr.1)

/-- Embeds `EZSTAGGER_OT_ease._apply_ease` over the captured snapshot list. -/
def apply_ease (is_in : Bool) (factor : ℚ) (data : List Snapshot) (s : Scene) : Scene :=
  data.foldl (fun acc it => applyEaseItem is_in factor it acc) s

/-- The per-snapshot write of `EZSTAGGER_OT_ease._restore`: both handle kinds,
positions and values return to the snapshot originals (the `.get` defaults in
the source never fire because the collection dict always stores both kinds). -/
def restoreWrite (it : Snapshot) (kp : Keypoint) : Keypoint :=
  { kp with
    hl_type := it.hl_type
    hr_type := it.hr_type
    hl_x := it.hl_x
    hl_y := it.hl_y
    hr_x := it.hr_x
    hr_y := it.hr_y }

/-- Embeds `EZSTAGGER_OT_ease._restore`. -/
def ease_restore (data : List Snapshot) (s : Scene) : Scene :=
  data.foldl (fun acc it => applyWrite (it, restoreWrite it) acc) s

theorem kpCoSel_easeWrite (is_in : Bool) (factor : ℚ) (it : Snapshot)
    (fc : FCurve) (kp : Keypoint) :
    kpCoSel (easeWrite is_in factor it fc kp) = kpCoSel kp := by
  unfold easeWrite
  split
  · split
    · split <;> rfl
    · rfl
  · split
    · split <;> rfl
    · rfl

theorem get_of_resolveKp_snap {s : Scene} {it : Snapshot} {kp : Keypoint}
    (h : resolveKp s it.loc = some kp) :
    ∃ fc, _get_fcurve_and_keypoint s it.obj_name it.action_name it.data_path
      it.array_index it.kp_index = some (fc, kp) :=
  get_of_resolveKp it.action_name h

theorem resolveKp_of_get_snap {s : Scene} {it : Snapshot} {fc : FCurve}
    {kp : Keypoint}
    (hget : _get_fcurve_and_keypoint s it.obj_name it.action_name it.data_path
      it.array_index it.kp_index = some (fc, kp)) :
    resolveKp s it.loc = some kp := by
  have hg' : _get_fcurve_and_keypoint s it.obj_name "" it.data_path
      it.array_index it.kp_index = some (fc, kp) := hget
  simp [resolveKp, Snapshot.loc, hg']

theorem resolveCol_of_get_snap {s : Scene} {it : Snapshot} {fc : FCurve}
    {kp : Keypoint}
    (hget : _get_fcurve_and_keypoint s it.obj_name it.action_name it.data_path
      it.array_index it.kp_index = some (fc, kp)) :
    resolveCol s it.loc = some (fc.keyframe_points.map kpCoSel) := by
  have hg' : _get_fcurve_and_keypoint s it.obj_name "" it.data_path
      it.array_index it.kp_index = some (fc, kp) := hget
  simp [resolveCol, Snapshot.loc, hg']

theorem resolveKp_applyEaseItem_coSel (is_in : Bool) (factor : ℚ)
    (it : Snapshot) (s : Scene) (loc : Loc) :
    (resolveKp (applyEaseItem is_in factor it s) loc).map kpCoSel
      = (resolveKp s loc).map kpCoSel := by
  unfold applyEaseItem
  cases hg : _get_fcurve_and_keypoint s it.obj_name it.action_name it.data_path
      it.array_index it.kp_index with
  | none => rfl
  | some pr =>
    exact resolveKp_update_coSel s loc it.loc _
      (fun kp => kpCoSel_easeWrite is_in factor it pr.1 kp)

theorem resolveCol_applyEaseItem (is_in : Bool) (factor : ℚ)
    (it : Snapshot) (s : Scene) (loc : Loc) :
    resolveCol (applyEaseItem is_in factor it s) loc = resolveCol s loc := by
  unfold applyEaseItem
  cases hg : _get_fcurve_and_keypoint s it.obj_name it.action_name it.data_path
      it.array_index it.kp_index with
  | none => rfl
  | some pr =>
    exact resolveCol_update s loc it.loc _
      (fun kp => kpCoSel_easeWrite is_in factor it pr.1 kp)

theorem resolveKp_applyEaseItem_ne (is_in : Bool) (factor : ℚ)
    (it : Snapshot) (s : Scene) (loc : Loc) (h : it.loc ≠ loc) :
    resolveKp (applyEaseItem is_in factor it s) loc = resolveKp s loc := by
  unfold applyEaseItem
  cases hg : _get_fcurve_and_keypoint s it.obj_name it.action_name it.data_path
      it.array_index it.kp_index with
  | none => rfl
  | some pr => exact resolveKp_update_ne s loc it.loc _ h

theorem resolveKp_apply_ease_ne (is_in : Bool) (factor : ℚ) :
    ∀ (data : List Snapshot) (loc : Loc), (∀ b ∈ data, b.loc ≠ loc) →
      ∀ s : Scene, resolveKp (apply_ease is_in factor data s) loc = resolveKp s loc := by
  intro data
  induction data with
  | nil => intro loc _ s; rfl
  | cons d rest ih =>
    intro loc h s
    have h1 := h d (List.mem_cons_self d rest)
    have h2 : ∀ b ∈ rest, b.loc ≠ loc := fun b hb => h b (List.mem_cons_of_mem _ hb)
    calc resolveKp (apply_ease is_in factor (d :: rest) s) loc
        = resolveKp (apply_ease is_in factor rest (applyEaseItem is_in factor d s)) loc := rfl
      _ = resolveKp (applyEaseItem is_in factor d s) loc := ih loc h2 _
      _ = resolveKp s loc := resolveKp_applyEaseItem_ne is_in factor d s loc h1

theorem resolveKp_apply_ease_coSel (is_in : Bool) (factor : ℚ) :
    ∀ (data : List Snapshot) (s : Scene) (loc : Loc),
      (resolveKp (apply_ease is_in factor data s) loc).map kpCoSel
        = (resolveKp s loc).map kpCoSel := by
  intro data
  induction data with
  | nil => intro s loc; rfl
  | cons d rest ih =>
    intro s loc
    calc (resolveKp (apply_ease is_in factor (d :: rest) s) loc).map kpCoSel
        = (resolveKp (applyEaseItem is_in factor d s) loc).map kpCoSel :=
          ih (applyEaseItem is_in factor d s) loc
      _ = (resolveKp s loc).map kpCoSel :=
          resolveKp_applyEaseItem_coSel is_in factor d s loc

/-- Master lemma for one `_apply_ease` pass: with pairwise-distinct snapshot
identities, a member snapshot's keyframe ends up mapped through `easeWrite`
for some f-curve whose co/selection column is the one the snapshot resolved
through at the start of the pass. -/
theorem resolveKp_apply_ease_mem :
    ∀ (data : List Snapshot) (is_in : Bool) (factor : ℚ) (s : Scene)
      (it : Snapshot) (col0 : List (ℚ × ℚ × Bool)) (kp : Keypoint),
      data.Pairwise (fun a b => a.loc ≠ b.loc) →
      it ∈ data →
      resolveKp s it.loc = some kp →
      resolveCol s it.loc = some col0 →
      ∃ fc, fc.keyframe_points.map kpCoSel = col0 ∧
        resolveKp (apply_ease is_in factor data s) it.loc
          = some (easeWrite is_in factor it fc kp) := by
  intro data
  induction data with
  | nil => intro _ _ _ it _ _ _ hmem _ _; exact absurd hmem (List.not_mem_nil _)
  | cons d rest ih =>
    intro is_in factor s it col0 kp hpw hmem hres hcol
    rw [List.pairwise_cons] at hpw
    rcases List.mem_cons.mp hmem with heq | hmem'
    · subst heq
      obtain ⟨fci, hget⟩ := get_of_resolveKp_snap hres
      have hcoli := resolveCol_of_get_snap hget
      have hcol0 : fci.keyframe_points.map kpCoSel = col0 := by
        rw [hcoli] at hcol
        exact Option.some.inj hcol
      refine ⟨fci, hcol0, ?_⟩
      have hstep : applyEaseItem is_in factor it s
          = updateKeypoint s it.loc (easeWrite is_in factor it fci) := by
        unfold applyEaseItem
        rw [hget]
      have h1 : resolveKp (applyEaseItem is_in factor it s) it.loc
          = some (easeWrite is_in factor it fci kp) := by
        rw [hstep, resolveKp_update_same, hres]
        rfl
      have h2 : ∀ b ∈ rest, b.loc ≠ it.loc := fun b hb => Ne.symm (hpw.1 b hb)
      calc resolveKp (apply_ease is_in factor (it :: rest) s) it.loc
          = resolveKp (apply_ease is_in factor rest
              (applyEaseItem is_in factor it s)) it.loc := rfl
        _ = resolveKp (applyEaseItem is_in factor it s) it.loc :=
            resolveKp_apply_ease_ne is_in factor rest it.loc h2 _
        _ = some (easeWrite is_in factor it fci kp) := h1
    · have hdl : d.loc ≠ it.loc := hpw.1 it hmem'
      have hres1 : resolveKp (applyEaseItem is_in factor d s) it.loc = some kp := by
        rw [resolveKp_applyEaseItem_ne is_in factor d s it.loc hdl]
        exact hres
      have hcol1 : resolveCol (applyEaseItem is_in factor d s) it.loc = some col0 := by
        rw [resolveCol_applyEaseItem is_in factor d s it.loc]
        exact hcol
      exact ih is_in factor (applyEaseItem is_in factor d s) it col0 kp hpw.2 hmem' hres1 hcol1

/-- Grouping key: `(obj_name, bone)` 2-tuples for coarse per-owner grouping
or `(obj_name, data_path, array_index)` 3-tuples for fine per-channel
grouping, made type-safe as a tagged variant. -/
inductive GroupKey where
  | owner (obj_name : String) (bone : String)
  | channel (obj_name : String) (data_path : String) (array_index : Nat)
deriving Repr, DecidableEq

/-- Coarse key: `(item['obj_name'], item['bone_name'] or "")`. -/
def coarseKey (it : Snapshot) : GroupKey :=
  .owner it.obj_name (it.bone_name.getD "")

/-- Fine key: `(item['obj_name'], item['data_path'], item['array_index'])`. -/
def fineKey (it : Snapshot) : GroupKey :=
  .channel it.obj_name it.data_path it.array_index

/-- Distinct keys in first-occurrence order: the iteration order of a Python
dict built by conditional insertion. -/
def firstOccur {κ : Type*} [DecidableEq κ] (ks : List κ) : List κ :=
  ks.foldl (fun acc k => if k ∈ acc then acc else acc ++ [k]) []

/-- Python `min` over a nonempty list (`0` stands in for the never-taken
empty case). -/
def minFrameOf : List ℚ → ℚ
  | [] => 0
  | x :: xs => xs.foldl min x

/-- Insert into an ascending-by-key list, after strictly smaller keys and
before equal ones — the stable placement of Python's `sorted`. -/
def insortBy {κ : Type*} (key : κ → ℚ) (a : κ) : List κ → List κ
  | [] => [a]
  | b :: bs => if key b < key a then b :: insortBy key a bs else a :: b :: bs

/-- Stable ascending sort by a rational key, modelling Python's `sorted`. -/
def insertionSortBy {κ : Type*} (key : κ → ℚ) : List κ → List κ
  | [] => []
  | a :: as => insortBy key a (insertionSortBy key as)

/-- The grouping-mode decision of `_determine_grouping`: with more than one
distinct `(object, bone)` owner among the selected items, group by the coarse
key, otherwise by the fine per-channel key. -/
def groupingKeyf (selected : List Snapshot) : Snapshot → GroupKey :=
  if 1 < ((selected.map (fun it => (it.obj_name, it.bone_name.getD ""))).dedup).length
  then coarseKey else fineKey

/-- The member list of one group: all selected items carrying its key, in
selection order (Python appends per item into `groups[key]`). -/
def groupOf (selected : List Snapshot) (k : GroupKey) : List Snapshot :=
  selected.filter (fun it => groupingKeyf selected it == k)

/-- The sort key of `_determine_grouping`:
`min(it['frame'] for it in groups[k])`. -/
def groupSortKey (selected : List Snapshot) (k : GroupKey) : ℚ :=
  minFrameOf ((groupOf selected k).map Snapshot.frame)

/-- Embeds `_determine_grouping`: empty selection gives no groups; otherwise
the distinct keys in dict insertion order, stably sorted ascending by each
group's earliest keyframe time, mapped to their member lists. -/
def _determine_grouping (selected : List Snapshot) : List (List Snapshot) :=
  if selected.isEmpty then []
  else
    (insertionSortBy (groupSortKey selected)
      (firstOccur (selected.map (groupingKeyf selected)))).map (groupOf selected)

/-- Modelled from the spec: `random.Random(seed).shuffle` is host/stdlib code
outside this repository; per the spec it is a deterministic seeded permutation
of its input, modelled here as a selection shuffle driven by a linear
congruential generator.  Only determinism in `(seed, list)` is used. -/
def lcgNext (x : Nat) : Nat := (1103515245 * x + 12345) % 2147483648

/-- Non-negative state derived from the Python seed. -/
def seedToNat (seed : Int) : Nat := (seed % 2147483648).toNat

/-- Remove and return the element at index `n`. -/
def pickNth : Nat → List α → Option (α × List α)
  | _, [] => none
  | 0, a :: as => some (a, as)
  | n + 1, a :: as => (pickNth n as).map (fun pr => (pr.1, a :: pr.2))

/-- Selection-shuffle loop, fuelled by the list length. -/
def shuffleGo : Nat → Nat → List α → List α
  | 0, _, l => l
  | fuel + 1, st, l =>
    let st' := lcgNext st
    match pickNth (st' % l.length) l with
    | none => l
    | some pr => pr.1 :: shuffleGo fuel st' pr.2

/-- Modelled from the spec: deterministic seeded shuffle standing in for the
stdlib `random.Random(seed).shuffle`. -/
def pyShuffle (seed : Int) (l : List α) : List α :=
  shuffleGo l.length (seedToNat seed) l

/-- The three gizmo order policies of the stagger operator. -/
inductive OrderMode where
  | NORMAL
  | REVERSE
  | RANDOM
deriving Repr, DecidableEq

/-- The ordering branch of `EZSTAGGER_OT_stagger.invoke`: NORMAL keeps the
time-sorted groups, REVERSE is `list(reversed(groups))`, RANDOM shuffles a
copy of the time-sorted groups with the seeded RNG. -/
def orderGroups : OrderMode → Int → List (List Snapshot) → List (List Snapshot)
  | .NORMAL, _, gs => gs
  | .REVERSE, _, gs => gs.reverse
  | .RANDOM, seed, gs => pyShuffle seed gs

/-- The slice of the process-wide `StaggerWidgetState` the stagger modal
touches: the persisted random seed. -/
structure Overlay where
  random_seed : Int
deriving Repr, DecidableEq

/-- Runtime state of `EZSTAGGER_OT_stagger` during a gesture. -/
structure StaggerOp where
  mode : OrderMode
  seed : Int
  groups_orig : List (List Snapshot)
  groups : List (List Snapshot)
  last_delta : Option ℤ
  init_time : ℚ
  handler : Bool
deriving Repr, DecidableEq

/-- Embeds `EZSTAGGER_OT_stagger.invoke` (host-context guards aside): abort on
an empty selection or empty grouping, otherwise capture mode, seed, the
original time-sorted groups, the mode-ordered groups, a zero last delta, the
pointer start time and the registered redraw hook. -/
def stagger_invoke (mode : OrderMode) (seed : Int) (t0 : ℚ)
    (selected : List Snapshot) : Option StaggerOp :=
  if selected.isEmpty then none
  else if (_determine_grouping selected).isEmpty then none
  else some { mode := mode, seed := seed,
              groups_orig := _determine_grouping selected,
              groups := orderGroups mode seed (_determine_grouping selected),
              last_delta := some 0, init_time := t0, handler := true }

/-- Embeds `EZSTAGGER_OT_stagger._reshuffle`: the random permutation is
recomputed from the ORIGINAL time-sorted group list, not the displayed one. -/
def stagger_reshuffle (op : StaggerOp) : StaggerOp :=
  { op with groups := pyShuffle op.seed op.groups_orig }

/-- Events the stagger modal handler consumes. -/
inductive ModalEvent where
  | esc
  | wheelUp
  | wheelDown
  | mouseMove (t : ℚ)
  | release
deriving Repr, DecidableEq

/-- Host modal status codes the handler returns. -/
inductive ModalResult where
  | RUNNING_MODAL
  | FINISHED
  | CANCELLED
deriving Repr, DecidableEq

/-- Combined post-event state of a modal step. -/
structure ModalOut where
  op : StaggerOp
  overlay : Overlay
  scene : Scene
  result : ModalResult
deriving Repr, DecidableEq

/-- Embeds `EZSTAGGER_OT_stagger.modal`.  ESC/right-mouse re-applies delta 0
and unregisters the redraw hook, leaving the overlay untouched; wheel events
adjust the held seed and reshuffle only in RANDOM mode, then re-apply the last
delta; pointer motion recomputes the integer frame delta and applies it only
when it changed; release unregisters the hook and persists the gesture seed
into the overlay.  (Python `round` ties to even, `round` here ties up; no
claim depends on half-frame pointer positions.) -/
def stagger_modal (op : StaggerOp) (ov : Overlay) (s : Scene) :
    ModalEvent → ModalOut
  | .esc =>
    { op := { op with handler := false }, overlay := ov,
      scene := stagger_apply op.groups 0 s, result := .CANCELLED }
  | .wheelUp =>
    if op.mode = .RANDOM then
      let op' := stagger_reshuffle { op with seed := op.seed + 1 }
      { op := op', overlay := ov,
        scene := stagger_apply op'.groups ((op'.last_delta.getD 0 : ℤ) : ℚ) s,
        result := .RUNNING_MODAL }
    else { op := op, overlay := ov, scene := s, result := .RUNNING_MODAL }
  | .wheelDown =>
    if op.mode = .RANDOM then
      let op' := stagger_reshuffle { op with seed := op.seed - 1 }
      { op := op', overlay := ov,
        scene := stagger_apply op'.groups ((op'.last_delta.getD 0 : ℤ) : ℚ) s,
        result := .RUNNING_MODAL }
    else { op := op, overlay := ov, scene := s, result := .RUNNING_MODAL }
  | .mouseMove t =>
    let delta : ℤ := round (t - op.init_time)
    if op.last_delta ≠ some delta then
      { op := { op with last_delta := some delta }, overlay := ov,
        scene := stagger_apply op.groups (delta : ℚ) s, result := .RUNNING_MODAL }
    else { op := op, overlay := ov, scene := s, result := .RUNNING_MODAL }
  | .release =>
    { op := { op with handler := false },
      overlay := { ov with random_seed := op.seed }, scene := s,
      result := .FINISHED }

/-- Fold a sequence of events through the modal handler. -/
def runEvents (op : StaggerOp) (ov : Overlay) (s : Scene)
    (evs : List ModalEvent) : ModalOut :=
  evs.foldl (fun m e => stagger_modal m.op m.overlay m.scene e)
    { op := op, overlay := ov, scene := s, result := .RUNNING_MODAL }

/-- The slice of `_KeyItem` (gizmo-less variant of the tool) that the
grouping-mode decision of `_prepare_groups` reads. -/
structure KeyItem where
  owner_name : Option String
  bone_name : Option String
  data_path : String
  array_index : Nat
  fcurve_select : Bool
deriving Repr, DecidableEq

/-- Embeds the grouping-mode decision of
`EZSTAGGER_OT_stagger_modal._prepare_groups` (`true` = fine per-f-curve
grouping, `false` = coarse per-owner grouping): with auto-grouping on, fine
iff some item's channel header flag is selected, flipped by the invert flag;
with auto-grouping off, fine unless inverted. -/
def decideGroupPerFCurve (auto_grouping invert_grouping : Bool)
    (items : List KeyItem) : Bool :=
  if auto_grouping then
    let anySel := items.any (fun it => it.fcurve_select)
    if invert_grouping then !anySel else anySel
  else !invert_grouping

/-- The grouping key `_prepare_groups` then uses per item
(`channel_key_per_fcurve` vs `channel_key_per_owner`). -/
def keyItemChannelKey (per_fcurve : Bool) (it : KeyItem) :
    Option String × Option String × Option String × Option Nat :=
  if per_fcurve then
    (it.owner_name, it.bone_name, some it.data_path, some it.array_index)
  else (it.owner_name, it.bone_name, none, none)

/-- `max(0.0, min(1.0, ease))`. -/
def clamp01 (x : ℚ) : ℚ := max 0 (min 1 x)

/-- The ease-in block of `_calculate_current_ease`'s loop body: when the
keyframe has a previous neighbour at distance above `0.001`, append the
clamped ratio of left-handle time distance to neighbour distance. -/
def easeAccumIn (kps : List Keypoint) (acc : List ℚ × List ℚ) (i : Nat)
    (kp : Keypoint) : List ℚ × List ℚ :=
  if 0 < i then
    match kps[i - 1]? with
    | some prev =>
      if 1/1000 < kp.co_x - prev.co_x then
        (acc.1 ++ [clamp01 ((kp.co_x - kp.hl_x) / (kp.co_x - prev.co_x))], acc.2)
      else acc
    | none => acc
  else acc

/-- The ease-out block of `_calculate_current_ease`'s loop body. -/
def easeAccumOut (kps : List Keypoint) (acc : List ℚ × List ℚ) (i : Nat)
    (kp : Keypoint) : List ℚ × List ℚ :=
  if i + 1 < kps.length then
    match kps[i + 1]? with
    | some next =>
      if 1/1000 < next.co_x - kp.co_x then
        (acc.1, acc.2 ++ [clamp01 ((kp.hr_x - kp.co_x) / (next.co_x - kp.co_x))])
      else acc
    | none => acc
  else acc

/-- Whole loop body of `_calculate_current_ease` for the keyframe at index
`i`: unselected keyframes contribute nothing. -/
def easeAccum (kps : List Keypoint) (acc : List ℚ × List ℚ) (i : Nat)
    (kp : Keypoint) : List ℚ × List ℚ :=
  if kp.select_cp then easeAccumOut kps (easeAccumIn kps acc i kp) i kp
  else acc

/-- Per-object step of the `_calculate_current_ease` scan. -/
def easeValsStep (acc : List ℚ × List ℚ) (ob : Obj) : List ℚ × List ℚ :=
  match ob.action with
  | none => acc
  | some act => act.fcurves.foldl (fun a fc =>
      fc.keyframe_points.enum.foldl
        (fun a2 pr => easeAccum fc.keyframe_points a2 pr.1 pr.2) a) acc

/-- Embeds `_calculate_current_ease`: collect per-keyframe ease-in/out ratios
over the scene and return their means, or `0.33` for an empty side. -/
def _calculate_current_ease (s : Scene) : ℚ × ℚ :=
  let v := s.foldl easeValsStep ([], [])
  ((if v.1.isEmpty then 33/100 else v.1.sum / (v.1.length : ℚ)),
   (if v.2.isEmpty then 33/100 else v.2.sum / (v.2.length : ℚ)))

/-- Declarative form of one keyframe's ease-in contribution (without the
selection guard). -/
def inRatioOpt (kps : List Keypoint) (i : Nat) (kp : Keypoint) : Option ℚ :=
  if 0 < i then
    match kps[i - 1]? with
    | some prev =>
      if 1/1000 < kp.co_x - prev.co_x then
        some (clamp01 ((kp.co_x - kp.hl_x) / (kp.co_x - prev.co_x)))
      else none
    | none => none
  else none

/-- Declarative form of one keyframe's ease-out contribution. -/
def outRatioOpt (kps : List Keypoint) (i : Nat) (kp : Keypoint) : Option ℚ :=
  if i + 1 < kps.length then
    match kps[i + 1]? with
    | some next =>
      if 1/1000 < next.co_x - kp.co_x then
        some (clamp01 ((kp.hr_x - kp.co_x) / (next.co_x - kp.co_x)))
      else none
    | none => none
  else none

/-- A selected keyframe's ease-in contribution. -/
def inOpt (kps : List Keypoint) (i : Nat) (kp : Keypoint) : Option ℚ :=
  if kp.select_cp then inRatioOpt kps i kp else none

/-- A selected keyframe's ease-out contribution. -/
def outOpt (kps : List Keypoint) (i : Nat) (kp : Keypoint) : Option ℚ :=
  if kp.select_cp then outRatioOpt kps i kp else none

/-- All ease-in ratios of one f-curve, in keyframe order. -/
def fcInVals (fc : FCurve) : List ℚ :=
  fc.keyframe_points.enum.filterMap
    (fun pr => inOpt fc.keyframe_points pr.1 pr.2)

/-- All ease-out ratios of one f-curve, in keyframe order. -/
def fcOutVals (fc : FCurve) : List ℚ :=
  fc.keyframe_points.enum.filterMap
    (fun pr => outOpt fc.keyframe_points pr.1 pr.2)

/-- All ease-in ratios reachable from one object. -/
def obInVals (ob : Obj) : List ℚ :=
  match ob.action with
  | none => []
  | some act => (act.fcurves.map fcInVals).flatten

/-- All ease-out ratios reachable from one object. -/
def obOutVals (ob : Obj) : List ℚ :=
  match ob.action with
  | none => []
  | some act => (act.fcurves.map fcOutVals).flatten

/-- Per the amended claim C7: per-keyframe clamped ease-in ratios of all
selected keyframes having a previous neighbour at distance above the `0.001`
degeneracy guard, across the scene. -/
def specEaseInVals (s : Scene) : List ℚ := (s.map obInVals).flatten

/-- Per the amended claim C7, for the ease-out side. -/
def specEaseOutVals (s : Scene) : List ℚ := (s.map obOutVals).flatten

/-- Mean of the collected ratios, or the fixed `0.33` default. -/
def meanOrDefault (l : List ℚ) : ℚ :=
  if l.isEmpty then 33/100 else l.sum / (l.length : ℚ)

theorem easeAccumIn_eq (kps : List Keypoint) (acc : List ℚ × List ℚ) (i : Nat)
    (kp : Keypoint) :
    easeAccumIn kps acc i kp
      = (acc.1 ++ (inRatioOpt kps i kp).toList, acc.2) := by
  unfold easeAccumIn inRatioOpt
  split
  · split
    · split <;> simp
    · simp
  · simp

theorem easeAccumOut_eq (kps : List Keypoint) (acc : List ℚ × List ℚ) (i : Nat)
    (kp : Keypoint) :
    easeAccumOut kps acc i kp
      = (acc.1, acc.2 ++ (outRatioOpt kps i kp).toList) := by
  unfold easeAccumOut outRatioOpt
  split
  · split
    · split <;> simp
    · simp
  · simp

theorem easeAccum_eq (kps : List Keypoint) (acc : List ℚ × List ℚ) (i : Nat)
    (kp : Keypoint) :
    easeAccum kps acc i kp
      = (acc.1 ++ (inOpt kps i kp).toList, acc.2 ++ (outOpt kps i kp).toList) := by
  unfold easeAccum inOpt outOpt
  split
  · rw [easeAccumOut_eq, easeAccumIn_eq]
  · simp

theorem foldl_easeAccum (kps : List Keypoint) :
    ∀ (l : List (Nat × Keypoint)) (a1 a2 : List ℚ),
      l.foldl (fun a pr => easeAccum kps a pr.1 pr.2) (a1, a2)
        = (a1 ++ l.filterMap (fun pr => inOpt kps pr.1 pr.2),
           a2 ++ l.filterMap (fun pr => outOpt kps pr.1 pr.2)) := by
  intro l
  induction l with
  | nil => intro a1 a2; simp
  | cons pr rest ih =>
    intro a1 a2
    rw [List.foldl_cons, easeAccum_eq, ih]
    cases hi : inOpt kps pr.1 pr.2 <;> cases ho : outOpt kps pr.1 pr.2 <;>
      simp [List.filterMap_cons, hi, ho]

theorem fcs_fold_eq :
    ∀ (fcs : List FCurve) (a1 a2 : List ℚ),
      fcs.foldl (fun a fc =>
          fc.keyframe_points.enum.foldl
            (fun a2 pr => easeAccum fc.keyframe_points a2 pr.1 pr.2) a) (a1, a2)
        = (a1 ++ (fcs.map fcInVals).flatten, a2 ++ (fcs.map fcOutVals).flatten) := by
  intro fcs
  induction fcs with
  | nil => intro a1 a2; simp
  | cons fc rest ih =>
    intro a1 a2
    rw [List.foldl_cons, foldl_easeAccum, ih]
    simp [fcInVals, fcOutVals, List.append_assoc]

theorem easeValsStep_eq (acc : List ℚ × List ℚ) (ob : Obj) :
    easeValsStep acc ob = (acc.1 ++ obInVals ob, acc.2 ++ obOutVals ob) := by
  unfold easeValsStep obInVals obOutVals
  cases ob.action with
  | none => simp
  | some act =>
    have := fcs_fold_eq act.fcurves acc.1 acc.2
    simpa using this

theorem scene_easeVals_eq :
    ∀ (s : Scene) (a1 a2 : List ℚ),
      s.foldl easeValsStep (a1, a2)
        = (a1 ++ specEaseInVals s, a2 ++ specEaseOutVals s) := by
  intro s
  induction s with
  | nil => intro a1 a2; simp [specEaseInVals, specEaseOutVals]
  | cons ob rest ih =>
    intro a1 a2
    rw [List.foldl_cons, easeValsStep_eq, ih]
    simp [specEaseInVals, specEaseOutVals, List.append_assoc]

theorem calculate_current_ease_eq (s : Scene) :
    _calculate_current_ease s
      = (meanOrDefault (specEaseInVals s), meanOrDefault (specEaseOutVals s)) := by
  unfold _calculate_current_ease meanOrDefault
  rw [scene_easeVals_eq s [] []]
  simp

/-- A snapshot agrees with a live keyframe on every captured field — exactly
the relation `_collect_selected_keyframes` establishes at gesture start. -/
def snapMatches (it : Snapshot) (kp : Keypoint) : Prop :=
  kp.co_x = it.frame ∧ kp.co_y = it.value ∧ kp.hl_x = it.hl_x ∧ kp.hl_y = it.hl_y
    ∧ kp.hr_x = it.hr_x ∧ kp.hr_y = it.hr_y ∧ kp.hl_type = it.hl_type
    ∧ kp.hr_type = it.hr_type

instance (it : Snapshot) (kp : Keypoint) : Decidable (snapMatches it kp) := by
  unfold snapMatches
  infer_instance

/-- An arbitrary sequence of `_apply` passes during one stagger gesture; the
group lists may differ between passes (reshuffles). -/
def staggerSession (steps : List (List (List Snapshot) × ℚ)) (s : Scene) : Scene :=
  steps.foldl (fun acc st => stagger_apply st.1 st.2 acc) s

/-- An arbitrary sequence of `_apply_ease` passes during one ease gesture over
the fixed captured snapshot list. -/
def easeSession (steps : List (Bool × ℚ)) (data : List Snapshot) (s : Scene) : Scene :=
  steps.foldl (fun acc st => apply_ease st.1 st.2 data acc) s

/-- Host-side rename of an action datablock. -/
def renameAct (g : String → String) (act : Action) : Action :=
  { act with name := g act.name }

/-- Host-side rename of the action assigned to an object. -/
def renameObjAction (g : String → String) (ob : Obj) : Obj :=
  { ob with action := ob.action.map (renameAct g) }

/-- Rename every action in the scene. -/
def renameActions (g : String → String) (s : Scene) : Scene :=
  s.map (renameObjAction g)

theorem find?_bind_map (p : α → Bool) (h : α → α) (e : α → Option β)
    (hp : ∀ a, p (h a) = p a) (he : ∀ a, p a = true → e (h a) = e a) :
    ∀ l : List α, ((l.map h).find? p).bind e = (l.find? p).bind e := by
  intro l
  induction l with
  | nil => rfl
  | cons a as ih =>
    simp only [List.map_cons]
    cases hpa : p a with
    | true =>
      rw [List.find?_cons_of_pos _ (show p (h a) = true by rw [hp]; exact hpa),
        List.find?_cons_of_pos _ hpa]
      simp [he a hpa]
    | false =>
      rw [List.find?_cons_of_neg _ (by rw [hp, hpa]; exact Bool.false_ne_true),
        List.find?_cons_of_neg _ (by rw [hpa]; exact Bool.false_ne_true)]
      exact ih

/-- Renaming actions changes no resolution result. -/
theorem resolveKp_renameActions (g : String → String) (s : Scene) (loc : Loc) :
    resolveKp (renameActions g s) loc = resolveKp s loc := by
  simp only [resolveKp_eq, renameActions]
  refine find?_bind_map _ _ _ (fun ob => by simp [objPred, renameObjAction])
    (fun ob _ => ?_) s
  simp only [renameObjAction]
  cases ob.action with
  | none => rfl
  | some act => rfl

theorem mem_insortBy {κ : Type*} (key : κ → ℚ) (a x : κ) :
    ∀ l : List κ, x ∈ insortBy key a l ↔ x = a ∨ x ∈ l := by
  intro l
  induction l with
  | nil => simp [insortBy]
  | cons b bs ih =>
    unfold insortBy
    split
    · rw [List.mem_cons, ih, List.mem_cons]
      tauto
    · simp [List.mem_cons]

theorem pairwise_insortBy {κ : Type*} (key : κ → ℚ) (a : κ) :
    ∀ l : List κ, l.Pairwise (fun x y => key x ≤ key y) →
      (insortBy key a l).Pairwise (fun x y => key x ≤ key y) := by
  intro l
  induction l with
  | nil => intro _; simp [insortBy]
  | cons b bs ih =>
    intro h
    rw [List.pairwise_cons] at h
    unfold insortBy
    split
    · rename_i hlt
      rw [List.pairwise_cons]
      refine ⟨fun y hy => ?_, ih h.2⟩
      rcases (mem_insortBy key a y bs).mp hy with rfl | hy'
      · exact le_of_lt hlt
      · exact h.1 y hy'
    · rename_i hge
      rw [List.pairwise_cons]
      refine ⟨fun y hy => ?_, List.pairwise_cons.mpr ⟨h.1, h.2⟩⟩
      rcases List.mem_cons.mp hy with rfl | hy'
      · exact le_of_not_lt hge
      · exact le_trans (le_of_not_lt hge) (h.1 y hy')

theorem pairwise_insertionSortBy {κ : Type*} (key : κ → ℚ) :
    ∀ l : List κ, (insertionSortBy key l).Pairwise (fun x y => key x ≤ key y) := by
  intro l
  induction l with
  | nil => simp [insertionSortBy]
  | cons a as ih => exact pairwise_insortBy key a _ ih

/-- The normal (time) ordering emits groups ascending by earliest time. -/
theorem determine_grouping_sorted (selected : List Snapshot) :
    (_determine_grouping selected).Pairwise
      (fun g1 g2 => minFrameOf (g1.map Snapshot.frame)
        ≤ minFrameOf (g2.map Snapshot.frame)) := by
  unfold _determine_grouping
  split
  · simp
  · exact List.pairwise_map.mpr (pairwise_insertionSortBy (groupSortKey selected) _)

/-- Written from claim C7's words, as stated: a selected keyframe with a
neighbour on the in side contributes the clamped ratio (no degeneracy
guard). -/
def claimInOpt (kps : List Keypoint) (i : Nat) (kp : Keypoint) : Option ℚ :=
  if kp.select_cp then
    if 0 < i then
      match kps[i - 1]? with
      | some prev => some (clamp01 ((kp.co_x - kp.hl_x) / (kp.co_x - prev.co_x)))
      | none => none
    else none
  else none

/-- Written from claim C7's words, for the out side. -/
def claimOutOpt (kps : List Keypoint) (i : Nat) (kp : Keypoint) : Option ℚ :=
  if kp.select_cp then
    match kps[i + 1]? with
    | some next => some (clamp01 ((kp.hr_x - kp.co_x) / (next.co_x - kp.co_x)))
    | none => none
  else none

def claimFcIn (fc : FCurve) : List ℚ :=
  fc.keyframe_points.enum.filterMap
    (fun pr => claimInOpt fc.keyframe_points pr.1 pr.2)

def claimFcOut (fc : FCurve) : List ℚ :=
  fc.keyframe_points.enum.filterMap
    (fun pr => claimOutOpt fc.keyframe_points pr.1 pr.2)

def claimObIn (ob : Obj) : List ℚ :=
  match ob.action with
  | none => []
  | some act => (act.fcurves.map claimFcIn).flatten

def claimObOut (ob : Obj) : List ℚ :=
  match ob.action with
  | none => []
  | some act => (act.fcurves.map claimFcOut).flatten

/-- Mean of the claimed ratios, or the claimed default of one third. -/
def claimMean (l : List ℚ) : ℚ := if l.isEmpty then 1/3 else l.sum / (l.length : ℚ)

/-- Displayed aggregate ease values exactly as claim C7 states them. -/
def claimEase (s : Scene) : ℚ × ℚ :=
  (claimMean ((s.map claimObIn).flatten), claimMean ((s.map claimObOut).flatten))

theorem clamp01_nonneg (x : ℚ) : 0 ≤ clamp01 x := le_max_left 0 _

theorem clamp01_le_one (x : ℚ) : clamp01 x ≤ 1 :=
  max_le (by norm_num) (min_le_left 1 x)

theorem inOpt_bounds {kps : List Keypoint} {i : Nat} {kp : Keypoint} {x : ℚ}
    (h : inOpt kps i kp = some x) : 0 ≤ x ∧ x ≤ 1 := by
  unfold inOpt inRatioOpt at h
  split at h
  · split at h
    · split at h
      · split at h
        · exact (Option.some.inj h) ▸ ⟨clamp01_nonneg _, clamp01_le_one _⟩
        · exact Option.noConfusion h
      · exact Option.noConfusion h
    · exact Option.noConfusion h
  · exact Option.noConfusion h

theorem outOpt_bounds {kps : List Keypoint} {i : Nat} {kp : Keypoint} {x : ℚ}
    (h : outOpt kps i kp = some x) : 0 ≤ x ∧ x ≤ 1 := by
  unfold outOpt outRatioOpt at h
  split at h
  · split at h
    · split at h
      · split at h
        · exact (Option.some.inj h) ▸ ⟨clamp01_nonneg _, clamp01_le_one _⟩
        · exact Option.noConfusion h
      · exact Option.noConfusion h
    · exact Option.noConfusion h
  · exact Option.noConfusion h

theorem specEaseInVals_bounds (s : Scene) :
    ∀ x ∈ specEaseInVals s, 0 ≤ x ∧ x ≤ 1 := by
  intro x hx
  simp only [specEaseInVals, List.mem_flatten, List.mem_map] at hx
  obtain ⟨l, ⟨ob, _, rfl⟩, hxl⟩ := hx
  unfold obInVals at hxl
  cases hact : ob.action with
  | none => rw [hact] at hxl; simp at hxl
  | some act =>
    rw [hact] at hxl
    simp only [List.mem_flatten, List.mem_map] at hxl
    obtain ⟨l2, ⟨fc, _, rfl⟩, hxl2⟩ := hxl
    unfold fcInVals at hxl2
    obtain ⟨pr, _, hpr⟩ := List.mem_filterMap.mp hxl2
    exact inOpt_bounds hpr

theorem specEaseOutVals_bounds (s : Scene) :
    ∀ x ∈ specEaseOutVals s, 0 ≤ x ∧ x ≤ 1 := by
  intro x hx
  simp only [specEaseOutVals, List.mem_flatten, List.mem_map] at hx
  obtain ⟨l, ⟨ob, _, rfl⟩, hxl⟩ := hx
  unfold obOutVals at hxl
  cases hact : ob.action with
  | none => rw [hact] at hxl; simp at hxl
  | some act =>
    rw [hact] at hxl
    simp only [List.mem_flatten, List.mem_map] at hxl
    obtain ⟨l2, ⟨fc, _, rfl⟩, hxl2⟩ := hxl
    unfold fcOutVals at hxl2
    obtain ⟨pr, _, hpr⟩ := List.mem_filterMap.mp hxl2
    exact outOpt_bounds hpr

theorem staggerWrite_absorb (it : Snapshot) (o1 o2 : ℚ) (kp : Keypoint) :
    staggerWrite it o2 (staggerWrite it o1 kp) = staggerWrite it o2 kp := rfl

theorem staggerWrite_zero_of_matches {it : Snapshot} {kp : Keypoint}
    (h : snapMatches it kp) : staggerWrite it 0 kp = kp := by
  obtain ⟨h1, _, h3, _, h5, _, _, _⟩ := h
  unfold staggerWrite
  ext <;> simp [h1, h3, h5]

/-- Invariant carried through an arbitrary stagger gesture: whatever sequence
of `_apply` passes ran, re-applying offset zero recovers the original. -/
theorem stagger_session_cancel :
    ∀ (steps : List (List (List Snapshot) × ℚ)) (s : Scene) (it : Snapshot)
      (kp0 kp : Keypoint),
      (∀ st ∈ steps, (∃ (r : Nat) (g : List Snapshot), st.1[r]? = some g ∧ it ∈ g) ∧
        st.1.flatten.Pairwise (fun a b : Snapshot => a.loc ≠ b.loc)) →
      resolveKp s it.loc = some kp →
      staggerWrite it 0 kp = kp0 →
      ∃ kp', resolveKp (staggerSession steps s) it.loc = some kp'
        ∧ staggerWrite it 0 kp' = kp0 := by
  intro steps
  induction steps with
  | nil => intro s it kp0 kp _ hres hw; exact ⟨kp, hres, hw⟩
  | cons st rest ih =>
    intro s it kp0 kp h hres hw
    obtain ⟨⟨r, g, hg, hit⟩, hdist⟩ := h st (List.mem_cons_self st rest)
    have h1 : resolveKp (stagger_apply st.1 st.2 s) it.loc
        = some (staggerWrite it ((r : ℚ) * st.2) kp) :=
      resolveKp_stagger_apply st.1 st.2 s r g it kp hg hit hdist hres
    have h2 : staggerWrite it 0 (staggerWrite it ((r : ℚ) * st.2) kp) = kp0 := by
      rw [staggerWrite_absorb]
      exact hw
    exact ih (stagger_apply st.1 st.2 s) it kp0 _
      (fun q (hq : q ∈ rest) => h q (List.mem_cons_of_mem st hq)) h1 h2

theorem easeSession_coSel (data : List Snapshot) :
    ∀ (steps : List (Bool × ℚ)) (s : Scene) (loc : Loc),
      (resolveKp (easeSession steps data s) loc).map kpCoSel
        = (resolveKp s loc).map kpCoSel := by
  intro steps
  induction steps with
  | nil => intro s loc; rfl
  | cons st rest ih =>
    intro s loc
    calc (resolveKp (easeSession (st :: rest) data s) loc).map kpCoSel
        = (resolveKp (apply_ease st.1 st.2 data s) loc).map kpCoSel :=
          ih (apply_ease st.1 st.2 data s) loc
      _ = (resolveKp s loc).map kpCoSel :=
          resolveKp_apply_ease_coSel st.1 st.2 data s loc

theorem ease_restore_eq (data : List Snapshot) (s : Scene) :
    ease_restore data s
      = applyWrites (data.map (fun it => (it, restoreWrite it))) s := by
  unfold ease_restore applyWrites
  rw [List.foldl_map]

theorem restoreWrite_eq_of {it : Snapshot} {kp kp' : Keypoint}
    (h : snapMatches it kp) (hco : kpCoSel kp' = kpCoSel kp) :
    restoreWrite it kp' = kp := by
  obtain ⟨h1, h2, h3, h4, h5, h6, h7, h8⟩ := h
  simp only [kpCoSel, Prod.mk.injEq] at hco
  unfold restoreWrite
  ext <;> simp [h1, h2, h3, h4, h5, h6, h7, h8, hco.1, hco.2.1, hco.2.2]

theorem easeWrite_in_eval (it : Snapshot) (factor : ℚ) (fc : FCurve)
    (kp prev : Keypoint) (hidx : 0 < it.kp_index)
    (hprev : fc.keyframe_points[it.kp_index - 1]? = some prev) :
    easeWrite true factor it fc kp
      = { kp with
          hl_type := "FREE"
          hr_type := "FREE"
          hl_x := it.frame - (it.frame - prev.co_x) * factor
          hl_y := it.hl_y } := by
  unfold easeWrite
  rw [if_pos rfl, if_pos hidx, hprev]

theorem easeWrite_in_first (it : Snapshot) (factor : ℚ) (fc : FCurve)
    (kp : Keypoint) (hidx : it.kp_index = 0) :
    easeWrite true factor it fc kp
      = { kp with hl_type := "FREE", hr_type := "FREE" } := by
  unfold easeWrite
  rw [if_pos rfl, if_neg (by omega)]

theorem easeWrite_out_eval (it : Snapshot) (factor : ℚ) (fc : FCurve)
    (kp next : Keypoint)
    (hnext : fc.keyframe_points[it.kp_index + 1]? = some next) :
    easeWrite false factor it fc kp
      = { kp with
          hr_type := "FREE"
          hl_type := "FREE"
          hr_x := it.frame + (next.co_x - it.frame) * factor
          hr_y := it.hr_y } := by
  have hlen : it.kp_index + 1 < fc.keyframe_points.length := by
    by_contra hc
    rw [List.getElem?_eq_none_iff.mpr (by omega)] at hnext
    exact Option.noConfusion hnext
  unfold easeWrite
  rw [if_neg Bool.false_ne_true, if_pos (by omega), hnext]

theorem col_neighbor {fc fc0 : FCurve} (j : Nat)
    (hcol : fc.keyframe_points.map kpCoSel = fc0.keyframe_points.map kpCoSel)
    {prev0 : Keypoint} (h0 : fc0.keyframe_points[j]? = some prev0) :
    ∃ prev, fc.keyframe_points[j]? = some prev ∧ prev.co_x = prev0.co_x := by
  have h1 : (fc.keyframe_points[j]?).map kpCoSel
      = (fc0.keyframe_points[j]?).map kpCoSel := by
    rw [← List.getElem?_map, ← List.getElem?_map, hcol]
  rw [h0] at h1
  cases hf : fc.keyframe_points[j]? with
  | none => rw [hf] at h1; exact Option.noConfusion h1
  | some prev =>
    rw [hf] at h1
    simp only [Option.map_some'] at h1
    refine ⟨prev, rfl, ?_⟩
    have h2 := congrArg Prod.fst (Option.some.inj h1)
    simpa [kpCoSel] using h2

theorem col_length {fc fc0 : FCurve}
    (hcol : fc.keyframe_points.map kpCoSel = fc0.keyframe_points.map kpCoSel) :
    fc.keyframe_points.length = fc0.keyframe_points.length := by
  have h2 := congrArg List.length hcol
  simpa using h2

/-- Wheel-event list of one gesture (`true` = wheel up). -/
def wheelEvents (bs : List Bool) : List ModalEvent :=
  bs.map (fun b => if b then ModalEvent.wheelUp else ModalEvent.wheelDown)

/-- Through any sequence of wheel reseeds in RANDOM mode, the displayed
permutation is always the seeded shuffle of the ORIGINAL group list under the
currently held seed. -/
theorem wheel_fold_invariant :
    ∀ (bs : List Bool) (m : ModalOut),
      m.op.mode = .RANDOM →
      m.op.groups = pyShuffle m.op.seed m.op.groups_orig →
      ((wheelEvents bs).foldl
          (fun m2 e => stagger_modal m2.op m2.overlay m2.scene e) m).op.mode
        = .RANDOM
      ∧ ((wheelEvents bs).foldl
          (fun m2 e => stagger_modal m2.op m2.overlay m2.scene e) m).op.groups_orig
        = m.op.groups_orig
      ∧ ((wheelEvents bs).foldl
          (fun m2 e => stagger_modal m2.op m2.overlay m2.scene e) m).op.groups
        = pyShuffle ((wheelEvents bs).foldl
            (fun m2 e => stagger_modal m2.op m2.overlay m2.scene e) m).op.seed
            m.op.groups_orig := by
  intro bs
  induction bs with
  | nil => intro m h1 h2; exact ⟨h1, rfl, h2⟩
  | cons b rest ih =>
    intro m h1 h2
    have hred : (wheelEvents (b :: rest)).foldl
          (fun m2 e => stagger_modal m2.op m2.overlay m2.scene e) m
        = (wheelEvents rest).foldl
            (fun m2 e => stagger_modal m2.op m2.overlay m2.scene e)
            (stagger_modal m.op m.overlay m.scene
              (if b then .wheelUp else .wheelDown)) := by
      simp [wheelEvents]
    have hstep : (stagger_modal m.op m.overlay m.scene
          (if b then ModalEvent.wheelUp else ModalEvent.wheelDown)).op.mode = .RANDOM
        ∧ (stagger_modal m.op m.overlay m.scene
            (if b then ModalEvent.wheelUp else ModalEvent.wheelDown)).op.groups_orig
          = m.op.groups_orig
        ∧ (stagger_modal m.op m.overlay m.scene
            (if b then ModalEvent.wheelUp else ModalEvent.wheelDown)).op.groups
          = pyShuffle (stagger_modal m.op m.overlay m.scene
              (if b then ModalEvent.wheelUp else ModalEvent.wheelDown)).op.seed
              m.op.groups_orig := by
      cases b <;> simp [stagger_modal, h1, stagger_reshuffle]
    have h4 := ih (stagger_modal m.op m.overlay m.scene
      (if b then ModalEvent.wheelUp else ModalEvent.wheelDown)) hstep.1
      (by rw [hstep.2.2, hstep.2.1])
    rw [hred]
    exact ⟨h4.1, by rw [h4.2.1, hstep.2.1], by rw [h4.2.2, hstep.2.1]⟩

/-! Concrete host data used to exercise the theorems. -/

def kpA : Keypoint := ⟨10, 1, 9, 1, 11, 1, "AUTO", "AUTO", true⟩

def kpB : Keypoint := ⟨40, 2, 39, 2, 41, 2, "AUTO", "AUTO", true⟩

def kpE0 : Keypoint := ⟨80, 0, 78, 0, 82, 0, "AUTO", "AUTO", true⟩

def kpE1 : Keypoint := ⟨100, 5, 95, 5, 105, 5, "AUTO", "AUTO", true⟩

def fcLoc0 : FCurve := ⟨"location", 0, [kpA]⟩

def fcLoc1 : FCurve := ⟨"location", 1, [kpB]⟩

def fcRot : FCurve := ⟨"rotation_euler", 0, [kpE0, kpE1]⟩

def actW : Action := ⟨"CubeAction", [fcLoc0, fcLoc1, fcRot]⟩

def sceneW : Scene := [⟨"Cube", some actW⟩]

def snapA : Snapshot :=
  ⟨"Cube", "CubeAction", "location", 0, none, 0, 10, 1, 9, 1, 11, 1, "AUTO", "AUTO"⟩

def snapB : Snapshot :=
  ⟨"Cube", "CubeAction", "location", 1, none, 0, 40, 2, 39, 2, 41, 2, "AUTO", "AUTO"⟩

def snapE0 : Snapshot :=
  ⟨"Cube", "CubeAction", "rotation_euler", 0, none, 0, 80, 0, 78, 0, 82, 0, "AUTO", "AUTO"⟩

def snapE1 : Snapshot :=
  ⟨"Cube", "CubeAction", "rotation_euler", 0, none, 1, 100, 5, 95, 5, 105, 5, "AUTO", "AUTO"⟩

def groupsW : List (List Snapshot) := [[snapA], [snapB]]

def selW : List Snapshot := [snapA, snapB]

/-- Two channels of one object with EQUAL earliest keyframe time (a sort
tie). -/
def snapT1 : Snapshot :=
  ⟨"T", "TA", "location", 0, none, 0, 5, 0, 4, 0, 6, 0, "AUTO", "AUTO"⟩

def snapT2 : Snapshot :=
  ⟨"T", "TA", "location", 1, none, 0, 5, 1, 4, 1, 6, 1, "AUTO", "AUTO"⟩

def selT : List Snapshot := [snapT1, snapT2]

/-- A selected keyframe whose previous neighbour sits closer than the `0.001`
degeneracy guard. -/
def kpD0 : Keypoint := ⟨0, 0, 0, 0, 0, 0, "AUTO", "AUTO", false⟩

def kpD1 : Keypoint := ⟨1/2000, 0, 0, 0, 1/2000, 0, "AUTO", "AUTO", true⟩

def sceneEps : Scene := [⟨"E", some ⟨"EA", [⟨"location", 0, [kpD0, kpD1]⟩]⟩⟩]

/-- A mid-gesture stagger operator whose held seed (43) differs from the
overlay's persisted seed (42). -/
def opW : StaggerOp := ⟨.RANDOM, 43, groupsW, groupsW.reverse, some 0, 0, true⟩

def ovW : Overlay := ⟨42⟩

/-- The operator state `stagger_invoke .RANDOM 42 0 selW` produces. -/
def opInvW : StaggerOp :=
  ⟨.RANDOM, 42, [[snapA], [snapB]], [[snapB], [snapA]], some 0, 0, true⟩

/-- C1: applying a delta `d` during a stagger gesture sets, for the channel of
rank `r` (0-based), each member snapshot's resolved keyframe time to
`original_time + r*d` and both handle times to the original handle times plus
`r*d`, leaving the keyframe value, the handle values and both interpolation
kinds unchanged; and since each pass recomputes from the immutable snapshot
originals, applying `d1` then `d2` in sequence in one gesture ends at exactly
the state of applying `d2` alone (`original + r*d2`, not cumulative). -/
theorem stagger_apply_rank_offsets_from_originals
    (groups : List (List Snapshot)) (d d1 d2 : ℚ) (s : Scene) (r : Nat)
    (g : List Snapshot) (it : Snapshot) (kp : Keypoint)
    (hg : groups[r]? = some g) (hit : it ∈ g)
    (hdist : groups.flatten.Pairwise (fun a b : Snapshot => a.loc ≠ b.loc))
    (hres : resolveKp s it.loc = some kp) :
    resolveKp (stagger_apply groups d s) it.loc
      = some { kp with
          co_x := it.frame + (r : ℚ) * d
          hl_x := it.hl_x + (r : ℚ) * d
          hr_x := it.hr_x + (r : ℚ) * d }
    ∧ resolveKp (stagger_apply groups d2 (stagger_apply groups d1 s)) it.loc
      = some { kp with
          co_x := it.frame + (r : ℚ) * d2
          hl_x := it.hl_x + (r : ℚ) * d2
          hr_x := it.hr_x + (r : ℚ) * d2 } := by
  constructor
  · exact resolveKp_stagger_apply groups d s r g it kp hg hit hdist hres
  · have h1 := resolveKp_stagger_apply groups d1 s r g it kp hg hit hdist hres
    have h2 := resolveKp_stagger_apply groups d2 (stagger_apply groups d1 s)
      r g it (staggerWrite it ((r : ℚ) * d1) kp) hg hit hdist h1
    rw [h2]
    rfl

theorem stagger_apply_rank_offsets_witness :
    resolveKp (stagger_apply groupsW 5 sceneW) snapB.loc
      = some { kpB with
          co_x := snapB.frame + (1 : ℚ) * 5
          hl_x := snapB.hl_x + (1 : ℚ) * 5
          hr_x := snapB.hr_x + (1 : ℚ) * 5 }
    ∧ resolveKp (stagger_apply groupsW 5 (stagger_apply groupsW 3 sceneW)) snapB.loc
      = some { kpB with
          co_x := snapB.frame + (1 : ℚ) * 5
          hl_x := snapB.hl_x + (1 : ℚ) * 5
          hr_x := snapB.hr_x + (1 : ℚ) * 5 } :=
  stagger_apply_rank_offsets_from_originals groupsW 5 3 5 sceneW 1 [snapB] snapB
    kpB (by decide) (by decide) (by decide) (by decide)

/-- C2: canceling a gesture at any point restores every touched keyframe to
its exact original state.  Stagger: after any sequence of `_apply` passes
(reshuffled group lists allowed), the cancel pass `_apply(0)` leaves the
resolved keyframe identical to its gesture-start value (time and both handle
positions included).  Ease: after any sequence of `_apply_ease` passes, the
cancel path's `_restore` leaves the resolved keyframe identical to its
gesture-start value — handle times, handle values AND both handle
interpolation kinds included. -/
theorem cancel_restores_exact_originals
    (steps : List (List (List Snapshot) × ℚ)) (gcancel : List (List Snapshot))
    (esteps : List (Bool × ℚ)) (data : List Snapshot)
    (s : Scene) (it : Snapshot) (kp : Keypoint)
    (hsteps : ∀ st ∈ steps,
      (∃ (r : Nat) (g : List Snapshot), st.1[r]? = some g ∧ it ∈ g) ∧
        st.1.flatten.Pairwise (fun a b : Snapshot => a.loc ≠ b.loc))
    (hc : ∃ (r : Nat) (g : List Snapshot), gcancel[r]? = some g ∧ it ∈ g)
    (hcdist : gcancel.flatten.Pairwise (fun a b : Snapshot => a.loc ≠ b.loc))
    (hedist : data.Pairwise (fun a b : Snapshot => a.loc ≠ b.loc))
    (hemem : it ∈ data)
    (hres : resolveKp s it.loc = some kp)
    (hm : snapMatches it kp) :
    resolveKp (stagger_apply gcancel 0 (staggerSession steps s)) it.loc = some kp
    ∧ resolveKp (ease_restore data (easeSession esteps data s)) it.loc = some kp := by
  constructor
  · have hw : staggerWrite it 0 kp = kp := staggerWrite_zero_of_matches hm
    obtain ⟨kp', hres', hw'⟩ := stagger_session_cancel steps s it kp kp hsteps hres hw
    obtain ⟨r, g, hg, hit⟩ := hc
    have h2 := resolveKp_stagger_apply gcancel 0 (staggerSession steps s)
      r g it kp' hg hit hcdist hres'
    rw [h2, show ((r : ℚ) * 0) = 0 from mul_zero _, hw']
  · have hsel : (resolveKp (easeSession esteps data s) it.loc).map kpCoSel
        = some (kpCoSel kp) := by
      rw [easeSession_coSel data esteps s it.loc, hres]
      rfl
    cases hres2 : resolveKp (easeSession esteps data s) it.loc with
    | none => rw [hres2] at hsel; exact Option.noConfusion hsel
    | some kpc =>
      rw [hres2] at hsel
      simp only [Option.map_some'] at hsel
      have hco : kpCoSel kpc = kpCoSel kp := Option.some.inj hsel
      rw [ease_restore_eq]
      have hmem2 : (it, restoreWrite it) ∈ data.map (fun j => (j, restoreWrite j)) :=
        List.mem_map_of_mem _ hemem
      have hpw2 : (data.map (fun j => (j, restoreWrite j))).Pairwise
          (fun a b => a.1.loc ≠ b.1.loc) :=
        List.pairwise_map.mpr hedist
      have h3 := resolveKp_applyWrites_mem
        (data.map (fun j => (j, restoreWrite j))) it (restoreWrite it)
        (easeSession esteps data s) kpc hpw2 hmem2 hres2
      rw [h3, restoreWrite_eq_of hm hco]

theorem cancel_restores_exact_originals_witness :
    resolveKp (stagger_apply groupsW 0 (staggerSession [(groupsW, 3)] sceneW))
      snapA.loc = some kpA
    ∧ resolveKp
        (ease_restore [snapA] (easeSession [(true, 1/2)] [snapA] sceneW))
        snapA.loc = some kpA :=
  cancel_restores_exact_originals [(groupsW, 3)] groupsW [(true, 1/2)] [snapA]
    sceneW snapA kpA
    (by
      intro st hst
      rw [List.mem_singleton] at hst
      subst hst
      exact ⟨⟨0, [snapA], rfl, by decide⟩, by decide⟩)
    ⟨0, [snapA], rfl, by decide⟩ (by decide) (by decide) (by decide)
    (by decide) (by decide)

/-- C3: random ordering is deterministic and non-cumulative.  Two RANDOM
gestures over the same selection with the same seed display the same
permutation (even from different pointer start times); and any sequence of
scroll-wheel reseeds during an active gesture ends with exactly the
permutation a fresh gesture started directly at the final seed would show,
because `_reshuffle` always recomputes from the ORIGINAL time-sorted list. -/
theorem random_order_deterministic_and_reseeds_from_original
    (seed : Int) (t0 t1 : ℚ) (sel : List Snapshot) (op0 : StaggerOp)
    (ov : Overlay) (s : Scene) (bs : List Bool)
    (hinv : stagger_invoke .RANDOM seed t0 sel = some op0) :
    ((stagger_invoke .RANDOM seed t1 sel).map (fun o => o.groups)
      = some op0.groups)
    ∧ ((stagger_invoke .RANDOM
          ((runEvents op0 ov s (wheelEvents bs)).op.seed) t0 sel).map
        (fun o => o.groups)
      = some ((runEvents op0 ov s (wheelEvents bs)).op.groups)) := by
  unfold stagger_invoke at hinv
  split at hinv
  · exact Option.noConfusion hinv
  · split at hinv
    · exact Option.noConfusion hinv
    · rename_i h1 h2
      have hfields := Option.some.inj hinv
      have hmode : op0.mode = .RANDOM := by rw [← hfields]
      have horig : op0.groups_orig = _determine_grouping sel := by rw [← hfields]
      have hseed : op0.seed = seed := by rw [← hfields]
      have hgroups : op0.groups = pyShuffle seed (_determine_grouping sel) := by
        rw [← hfields]
        rfl
      constructor
      · unfold stagger_invoke
        rw [if_neg h1, if_neg h2]
        simp only [Option.map_some']
        rw [hgroups]
        rfl
      · have hw := wheel_fold_invariant bs
          { op := op0, overlay := ov, scene := s, result := .RUNNING_MODAL }
          hmode (by rw [hgroups, horig, hseed])
        unfold stagger_invoke
        rw [if_neg h1, if_neg h2]
        simp only [Option.map_some']
        unfold runEvents
        rw [hw.2.2, horig]
        rfl

theorem random_order_deterministic_witness :
    ((stagger_invoke .RANDOM 42 7 selW).map (fun o => o.groups)
      = some opInvW.groups)
    ∧ ((stagger_invoke .RANDOM
          ((runEvents opInvW ovW sceneW (wheelEvents [true, true])).op.seed) 0
          selW).map (fun o => o.groups)
      = some ((runEvents opInvW ovW sceneW (wheelEvents [true, true])).op.groups)) :=
  random_order_deterministic_and_reseeds_from_original 42 0 7 selW opInvW ovW
    sceneW [true, true] (by decide)

/-- C4: the "reverse" ordering is the exact list reversal of the "normal"
ordering, for every selection and seed; the normal ordering is a stable
ascending sort by earliest group time (groups appear in nondecreasing
earliest-time order), so two channels with equal earliest time keep their
selection-order in the normal list and appear swapped exactly once in the
reverse list — demonstrated on a concrete tie. -/
theorem reverse_order_is_exact_reversal :
    (∀ (sel : List Snapshot) (seed : Int),
      orderGroups .REVERSE seed (_determine_grouping sel)
        = (orderGroups .NORMAL seed (_determine_grouping sel)).reverse)
    ∧ (∀ sel : List Snapshot, (_determine_grouping sel).Pairwise
        (fun g1 g2 => minFrameOf (g1.map Snapshot.frame)
          ≤ minFrameOf (g2.map Snapshot.frame)))
    ∧ (minFrameOf ([snapT1].map Snapshot.frame)
        = minFrameOf ([snapT2].map Snapshot.frame)
      ∧ _determine_grouping selT = [[snapT1], [snapT2]]
      ∧ orderGroups .REVERSE 0 (_determine_grouping selT) = [[snapT2], [snapT1]]) := by
  refine ⟨fun sel seed => rfl, fun sel => determine_grouping_sorted sel, ?_, ?_, ?_⟩
  · decide
  · decide
  · decide

/-- C5: the grouping-mode decision of `_prepare_groups`.  With auto-detection
enabled the result is fine (per-f-curve) grouping exactly when at least one
item's channel header flag is selected, with the explicit invert flag
flipping the decision (an exclusive-or); with auto-detection disabled, the
mode is fine grouping unless inverted.  The third conjunct grounds "at least
one" as the existence of a member item with the flag set, and the fourth
records that the decision selects between the fine per-channel and coarse
per-owner grouping keys. -/
theorem grouping_mode_decision :
    (∀ (invert : Bool) (items : List KeyItem),
      decideGroupPerFCurve true invert items
        = xor (items.any (fun it => it.fcurve_select)) invert)
    ∧ (∀ (invert : Bool) (items : List KeyItem),
      decideGroupPerFCurve false invert items = !invert)
    ∧ (∀ items : List KeyItem,
      (items.any (fun it => it.fcurve_select)) = true
        ↔ ∃ it ∈ items, it.fcurve_select = true)
    ∧ (∀ it : KeyItem,
      keyItemChannelKey true it
        = (it.owner_name, it.bone_name, some it.data_path, some it.array_index)
      ∧ keyItemChannelKey false it = (it.owner_name, it.bone_name, none, none)) := by
  refine ⟨?_, fun invert items => rfl, fun items => ?_, fun it => ⟨rfl, rfl⟩⟩
  · intro invert items
    cases invert <;> cases h : items.any (fun it => it.fcurve_select) <;>
      simp [decideGroupPerFCurve, h]
  · simp [List.any_eq_true]

/-- C6: during an ease update the pointer X position is mapped linearly across
the slider's pixel bounds to a factor clamped to `[0,1]`; for a snapshot with
a neighbour on the active side, that side's handle time becomes
`keyframe_time - factor * distance_to_neighbour` for ease-in and
`keyframe_time + factor * distance_to_neighbour` for ease-out, with the handle
value component left at the snapshot original (so a handle value equal to its
original is untouched).  (E.g. factor `1/2`, keyframe at 100, previous at 80
puts the left handle at 90 — see the witness.) -/
theorem ease_update_factor_and_handle_times
    (data : List Snapshot) (s : Scene) (it : Snapshot) (fc0 : FCurve)
    (kp prev0 next0 : Keypoint) (mx sx sw : ℚ)
    (hdist : data.Pairwise (fun a b : Snapshot => a.loc ≠ b.loc))
    (hmem : it ∈ data)
    (hget : _get_fcurve_and_keypoint s it.obj_name it.action_name it.data_path
      it.array_index it.kp_index = some (fc0, kp)) :
    (0 ≤ easeSliderValue mx sx sw ∧ easeSliderValue mx sx sw ≤ 1)
    ∧ (0 < it.kp_index →
        fc0.keyframe_points[it.kp_index - 1]? = some prev0 →
        resolveKp (apply_ease true (easeSliderValue mx sx sw) data s) it.loc
          = some { kp with
              hl_type := "FREE", hr_type := "FREE",
              hl_x := it.frame - (it.frame - prev0.co_x) * easeSliderValue mx sx sw,
              hl_y := it.hl_y })
    ∧ (fc0.keyframe_points[it.kp_index + 1]? = some next0 →
        resolveKp (apply_ease false (easeSliderValue mx sx sw) data s) it.loc
          = some { kp with
              hl_type := "FREE", hr_type := "FREE",
              hr_x := it.frame + (next0.co_x - it.frame) * easeSliderValue mx sx sw,
              hr_y := it.hr_y }) := by
  refine ⟨⟨le_max_left _ _, max_le (by norm_num) (min_le_left _ _)⟩, ?_, ?_⟩
  · intro hidx hprev
    obtain ⟨fc, hcol, hre⟩ := resolveKp_apply_ease_mem data true
      (easeSliderValue mx sx sw) s it (fc0.keyframe_points.map kpCoSel) kp
      hdist hmem (resolveKp_of_get_snap hget) (resolveCol_of_get_snap hget)
    obtain ⟨prev, hp, hpx⟩ := col_neighbor (it.kp_index - 1) hcol hprev
    rw [hre, easeWrite_in_eval it (easeSliderValue mx sx sw) fc kp prev hidx hp, hpx]
  · intro hnext
    obtain ⟨fc, hcol, hre⟩ := resolveKp_apply_ease_mem data false
      (easeSliderValue mx sx sw) s it (fc0.keyframe_points.map kpCoSel) kp
      hdist hmem (resolveKp_of_get_snap hget) (resolveCol_of_get_snap hget)
    obtain ⟨next, hn, hnx⟩ := col_neighbor (it.kp_index + 1) hcol hnext
    rw [hre, easeWrite_out_eval it (easeSliderValue mx sx sw) fc kp next hn, hnx]

theorem ease_update_factor_witness :
    resolveKp (apply_ease true (easeSliderValue 40 0 80) [snapE1] sceneW)
      snapE1.loc
      = some { kpE1 with
          hl_type := "FREE", hr_type := "FREE",
          hl_x := snapE1.frame - (snapE1.frame - kpE0.co_x) * easeSliderValue 40 0 80,
          hl_y := snapE1.hl_y }
    ∧ snapE1.frame - (snapE1.frame - kpE0.co_x) * easeSliderValue 40 0 80 = 90 :=
  ⟨(ease_update_factor_and_handle_times [snapE1] sceneW snapE1 fcRot kpE1 kpE0
      kpE0 40 0 80 (by decide) (by decide) (by decide)).2.1 (by decide) (by decide),
    by norm_num [snapE1, kpE0, easeSliderValue]⟩

/-- C7 counterexample: the claim's displayed-value semantics fail on the code.
With nothing selected the code returns `0.33`, not the claimed one third; and
with a selected keyframe whose previous neighbour is `1/2000` frames away the
code's `> 0.001` degeneracy guard makes the keyframe contribute NOTHING
(returning the `0.33` default) while the claim as stated yields a mean of 1. -/
theorem calculate_ease_claim_counterexample :
    _calculate_current_ease [] = (33/100, 33/100)
    ∧ claimEase [] = (1/3, 1/3)
    ∧ ((33 : ℚ)/100 ≠ 1/3)
    ∧ _calculate_current_ease sceneEps = (33/100, 33/100)
    ∧ claimEase sceneEps = (1, 1/3) := by
  refine ⟨rfl, rfl, by norm_num, ?_, ?_⟩
  · have hin : specEaseInVals sceneEps = [] := by
      norm_num [specEaseInVals, sceneEps, obInVals, fcInVals, List.enum,
        List.enumFrom, inOpt, inRatioOpt, kpD0, kpD1, List.filterMap_cons]
    have hout : specEaseOutVals sceneEps = [] := by
      norm_num [specEaseOutVals, sceneEps, obOutVals, fcOutVals, List.enum,
        List.enumFrom, outOpt, outRatioOpt, kpD0, kpD1, List.filterMap_cons]
    rw [calculate_current_ease_eq, hin, hout]
    rfl
  · have hin : (sceneEps.map claimObIn).flatten = [1] := by
      norm_num [sceneEps, claimObIn, claimFcIn, claimInOpt, List.enum,
        List.enumFrom, kpD0, kpD1, clamp01, min_def, max_def, List.filterMap_cons]
    have hout : (sceneEps.map claimObOut).flatten = ([] : List ℚ) := by
      norm_num [sceneEps, claimObOut, claimFcOut, claimOutOpt, List.enum,
        List.enumFrom, kpD0, kpD1, List.filterMap_cons]
    unfold claimEase
    rw [hin, hout]
    norm_num [claimMean]

/-- C7 amended: the displayed aggregate for each side is the arithmetic mean
of the per-keyframe ratios of SIGNED offsets, clamped into `[0,1]`: ease-in
uses `(keyframe_time - left_handle_time) / (keyframe_time - previous_time)`
and ease-out uses `(right_handle_time - keyframe_time) / (next_time -
keyframe_time)`, each passed through `max 0 (min 1 _)` — so a handle lying on
the wrong side of its keyframe contributes `0`, not a positive magnitude.  A
selected keyframe contributes on a side only when a neighbour exists on that
side and the SIGNED distance to it exceeds the `0.001` degeneracy guard
(closer or absent neighbours contribute nothing); every contributed ratio
lies in `[0,1]`; and when no keyframe qualifies the value is the fixed
default `0.33`. -/
theorem calculate_ease_characterization (s : Scene) :
    _calculate_current_ease s
      = (meanOrDefault (specEaseInVals s), meanOrDefault (specEaseOutVals s))
    ∧ (∀ x ∈ specEaseInVals s, 0 ≤ x ∧ x ≤ 1)
    ∧ (∀ x ∈ specEaseOutVals s, 0 ≤ x ∧ x ≤ 1)
    ∧ meanOrDefault [] = 33/100 :=
  ⟨calculate_current_ease_eq s, specEaseInVals_bounds s, specEaseOutVals_bounds s,
    rfl⟩

theorem calculate_ease_characterization_witness :
    _calculate_current_ease sceneW
      = (meanOrDefault (specEaseInVals sceneW), meanOrDefault (specEaseOutVals sceneW))
    ∧ (0 : ℚ) ≤ 1 :=
  ⟨(calculate_ease_characterization sceneW).1, by norm_num⟩

/-- C8 counterexample: an ease-in update on a snapshot WITHOUT a neighbour on
the active side (keyframe index 0) still mutates it — both handle
interpolation kinds are forced from "AUTO" to "FREE", and the inactive right
side is forced as well, contradicting "only the active side" and "snapshots
without a neighbour are left entirely unchanged". -/
theorem ease_force_free_counterexample :
    (resolveKp sceneW snapE0.loc).map (fun kp => (kp.hl_type, kp.hr_type))
      = some ("AUTO", "AUTO")
    ∧ (resolveKp (apply_ease true (1/2) [snapE0] sceneW) snapE0.loc).map
        (fun kp => (kp.hl_type, kp.hr_type)) = some ("FREE", "FREE")
    ∧ ("AUTO" : String) ≠ "FREE" := by
  exact ⟨by decide, by decide, by decide⟩

/-- C8 amended: an ease update forces BOTH handle interpolation kinds of every
resolved snapshot to "FREE", regardless of side or neighbour existence; for an
ease-in update on a snapshot lacking a previous neighbour (keyframe index 0)
that is the whole effect — times, values and everything else are unchanged.
(The active-side position write for qualifying snapshots is the C6
theorem.) -/
theorem ease_update_forces_both_free
    (data : List Snapshot) (s : Scene) (it : Snapshot) (fc0 : FCurve)
    (kp : Keypoint) (factor : ℚ)
    (hdist : data.Pairwise (fun a b : Snapshot => a.loc ≠ b.loc))
    (hmem : it ∈ data)
    (hget : _get_fcurve_and_keypoint s it.obj_name it.action_name it.data_path
      it.array_index it.kp_index = some (fc0, kp))
    (hidx0 : it.kp_index = 0) :
    resolveKp (apply_ease true factor data s) it.loc
      = some { kp with hl_type := "FREE", hr_type := "FREE" } := by
  obtain ⟨fc, hcol, hre⟩ := resolveKp_apply_ease_mem data true factor s it
    (fc0.keyframe_points.map kpCoSel) kp hdist hmem
    (resolveKp_of_get_snap hget) (resolveCol_of_get_snap hget)
  rw [hre, easeWrite_in_first it factor fc kp hidx0]

theorem ease_update_forces_both_free_witness :
    resolveKp (apply_ease true (1/2) [snapE0] sceneW) snapE0.loc
      = some { kpE0 with hl_type := "FREE", hr_type := "FREE" } :=
  ease_update_forces_both_free [snapE0] sceneW snapE0 fcRot kpE0 (1/2)
    (by decide) (by decide) (by decide) (by decide)

/-- C9 counterexample: canceling a gesture whose held seed (43) differs from
the overlay's persisted seed (42) leaves the overlay seed at 42 — the cancel
path does NOT persist the gesture's final seed. -/
theorem cancel_seed_not_persisted_counterexample :
    opW.seed = 43
    ∧ (stagger_modal opW ovW sceneW ModalEvent.esc).result = .CANCELLED
    ∧ (stagger_modal opW ovW sceneW ModalEvent.esc).overlay.random_seed = 42
    ∧ ((42 : Int) ≠ 43) := by
  exact ⟨rfl, rfl, rfl, by decide⟩

/-- C9 amended: only the commit path persists the gesture's final seed into
the overlay state; the cancel path leaves the overlay untouched; BOTH paths
unregister the redraw hook. -/
theorem finalize_paths_seed_persistence (op : StaggerOp) (ov : Overlay)
    (s : Scene) :
    (stagger_modal op ov s ModalEvent.release).overlay.random_seed = op.seed
    ∧ (stagger_modal op ov s ModalEvent.release).op.handler = false
    ∧ (stagger_modal op ov s ModalEvent.release).result = .FINISHED
    ∧ (stagger_modal op ov s ModalEvent.esc).overlay = ov
    ∧ (stagger_modal op ov s ModalEvent.esc).op.handler = false
    ∧ (stagger_modal op ov s ModalEvent.esc).result = .CANCELLED :=
  ⟨rfl, rfl, rfl, rfl, rfl, rfl⟩

theorem get_in_range {s : Scene} {o an dp : String} {ai ki : Nat} {fc : FCurve}
    {kp : Keypoint}
    (hg : _get_fcurve_and_keypoint s o an dp ai ki = some (fc, kp)) :
    ki < fc.keyframe_points.length := by
  unfold _get_fcurve_and_keypoint at hg
  cases hob : s.find? (objPred o) with
  | none => rw [hob] at hg; exact Option.noConfusion hg
  | some ob =>
    rw [hob] at hg
    replace hg : (ob.action.bind fun act =>
        findKpInFCurves dp ai ki act.fcurves) = some (fc, kp) := hg
    cases hact : ob.action with
    | none => rw [hact] at hg; exact Option.noConfusion hg
    | some act =>
      rw [hact] at hg
      replace hg : findKpInFCurves dp ai ki act.fcurves = some (fc, kp) := hg
      rw [findKpInFCurves_eq] at hg
      cases hfc : act.fcurves.find? (fcPred dp ai ki) with
      | none => rw [hfc] at hg; exact Option.noConfusion hg
      | some fc' =>
        rw [hfc] at hg
        replace hg : (fc'.keyframe_points[ki]?).map
          (fun kp2 => (fc', kp2)) = some (fc, kp) := hg
        cases hkp : fc'.keyframe_points[ki]? with
        | none => rw [hkp] at hg; exact Option.noConfusion hg
        | some kp' =>
          rw [hkp] at hg
          simp only [Option.map_some'] at hg
          have hfc2 : fc' = fc := congrArg Prod.fst (Option.some.inj hg)
          subst hfc2
          by_contra hc
          rw [List.getElem?_eq_none_iff.mpr (by omega)] at hkp
          exact Option.noConfusion hkp

/-- C10: snapshot resolution never consults the stored action name: the
`action_name` argument is ignored; renaming every action in the scene changes
no resolution result; writes through a resolved snapshot still land after
such a rename; and any successful resolution has the stored keyframe index in
range of the matched f-curve (an out-of-range index on the matched curve is
reported as not-found). -/
theorem resolution_ignores_action_name
    (s : Scene) (o an an' dp : String) (ai ki : Nat) (g : String → String)
    (loc : Loc) (f : Keypoint → Keypoint) :
    (_get_fcurve_and_keypoint s o an dp ai ki
      = _get_fcurve_and_keypoint s o an' dp ai ki)
    ∧ resolveKp (renameActions g s) loc = resolveKp s loc
    ∧ resolveKp (updateKeypoint (renameActions g s) loc f) loc
      = (resolveKp s loc).map f
    ∧ (∀ fc kp, _get_fcurve_and_keypoint s o an dp ai ki = some (fc, kp) →
        ki < fc.keyframe_points.length) := by
  refine ⟨rfl, resolveKp_renameActions g s loc, ?_, fun fc kp hg => get_in_range hg⟩
  rw [resolveKp_update_same, resolveKp_renameActions]

theorem resolution_ignores_action_name_witness :
    (_get_fcurve_and_keypoint sceneW "Cube" "CubeAction" "location" 0 0
      = _get_fcurve_and_keypoint sceneW "Cube" "RenamedAction" "location" 0 0)
    ∧ resolveKp (renameActions (fun _ => "X") sceneW) snapA.loc
      = resolveKp sceneW snapA.loc
    ∧ (0 : Nat) < fcLoc0.keyframe_points.length :=
  ⟨(resolution_ignores_action_name sceneW "Cube" "CubeAction" "RenamedAction"
      "location" 0 0 (fun _ => "X") snapA.loc id).1,
    (resolution_ignores_action_name sceneW "Cube" "CubeAction" "RenamedAction"
      "location" 0 0 (fun _ => "X") snapA.loc id).2.1,
    (resolution_ignores_action_name sceneW "Cube" "CubeAction" "RenamedAction"
      "location" 0 0 (fun _ => "X") snapA.loc id).2.2.2 fcLoc0 kpA (by decide)⟩

end EZStagger
